import Mathlib

set_option maxRecDepth 8000

/-!
Verification of the x-EchoMind approval state machine and cycle orchestrator.

Shallow embedding of:
- `src/state.js`   — duplicate-prevention store (bounded, persisted id lists);
- `src/tones.js`   — tone registry;
- `src/approver.js` — interactive approval protocol (`approveAction`);
- `src/bot.js`     — topic-cycle orchestrator (`runTopicCycle`).

Modelling conventions:
- Module-level mutable state (`state.js`'s `state` object) becomes explicit
  state passing (`BotState`), and the file-system write in `saveState` is
  dropped (it does not affect the values of the three id lists or
  `lastRunAt`, which are what the claims are about). The wall-clock
  timestamp written by `saveState` is passed in as a `now` argument.
- Asynchronous external collaborators (twitter client, OpenAI client,
  inquirer prompts) become an oracle environment `Env` of pure functions;
  fallible publisher calls return `Except`.
- JS engagement scores (`likes + retweets*2 + replies*1.5` on IEEE doubles)
  are modelled over `ℚ`; for integral counts in any realistic range the
  double computation is exact, so the order over `ℚ` coincides.
- Interactive prompts are modelled by an operator script: a list of
  `OperatorResponse`s consumed one per presentation.  A prompt that in
  reality would re-ask forever (invalid edit input with no valid input ever
  supplied, or a script that runs out while the operator keeps choosing
  "change tone") is modelled as `none` ("the interaction never completes").
- Side effects of the cycle are recorded in an event trace (`Event`).
-/

/-- A normalized tweet as produced by the twitter client
(`parseTweetResult` / `parseAdaptiveSearch`); only the fields the
orchestrator reads are kept. -/
structure Tweet where
  id : String
  text : String
  author : String
  likes : Nat
  retweets : Nat
  replies : Nat
  isRetweet : Bool
deriving DecidableEq

/-- `engagementScore` from `bot.js`:
`(t.likes ?? 0) + (t.retweets ?? 0) * 2 + (t.replies ?? 0) * 1.5`. -/
def engagementScore (t : Tweet) : ℚ :=
  (t.likes : ℚ) + (t.retweets : ℚ) * 2 + (t.replies : ℚ) * (3 / 2)

/-! ## Duplicate-prevention store (`state.js`) -/

/-- The persisted state record of `state.js`. -/
structure BotState where
  repliedTo : List String
  quotedTweets : List String
  postedTweets : List String
  lastRunAt : Option String
deriving DecidableEq

/-- The module-level initializer of `state.js` (all lists empty,
`lastRunAt: null`). -/
def initialState : BotState := ⟨[], [], [], none⟩

/-- `MAX_HISTORY = 500` — keep last N ids to avoid unbounded growth. -/
def MAX_HISTORY : Nat := 500

/-- JS `arr.slice(-n)` for `n > 0`: the last `min n (length arr)` elements,
in order. -/
def sliceLast (n : Nat) (l : List String) : List String :=
  l.drop (l.length - n)

/-- `saveState` from `state.js`: trims each of the three histories to the
last `MAX_HISTORY` entries and stamps `lastRunAt`.  (The JSON write to disk
is not modelled; `new Date().toISOString()` is the `now` argument.) -/
def saveState (now : String) (s : BotState) : BotState :=
  { repliedTo := sliceLast MAX_HISTORY s.repliedTo
    quotedTweets := sliceLast MAX_HISTORY s.quotedTweets
    postedTweets := sliceLast MAX_HISTORY s.postedTweets
    lastRunAt := some now }

/-- `hasRepliedTo(tweetId)`: `state.repliedTo.includes(tweetId)`. -/
def hasRepliedTo (tweetId : String) (s : BotState) : Bool :=
  s.repliedTo.contains tweetId

/-- `hasQuoted(tweetId)`: `state.quotedTweets.includes(tweetId)`. -/
def hasQuoted (tweetId : String) (s : BotState) : Bool :=
  s.quotedTweets.contains tweetId

/-- `markReplied(tweetId)`: push then `saveState()`. -/
def markReplied (now : String) (tweetId : String) (s : BotState) : BotState :=
  saveState now { s with repliedTo := s.repliedTo ++ [tweetId] }

/-- `markQuoted(tweetId)`: push then `saveState()`. -/
def markQuoted (now : String) (tweetId : String) (s : BotState) : BotState :=
  saveState now { s with quotedTweets := s.quotedTweets ++ [tweetId] }

/-- `markPosted(tweetId)`: push then `saveState()`. -/
def markPosted (now : String) (tweetId : String) (s : BotState) : BotState :=
  saveState now { s with postedTweets := s.postedTweets ++ [tweetId] }

/-! ## Tone registry (`tones.js`) -/

/-- One entry of the `TONES` table in `tones.js`. -/
structure ToneRec where
  value : String
  icon : String
  label : String
  instruction : String
deriving DecidableEq

/-- The `TONES` table (instruction texts abbreviated to their first words;
only `value` is ever consumed by the control flow under verification). -/
def TONES : List ToneRec :=
  [ ⟨"serious", "💡", "Serious / Insightful", "Write in a serious, thoughtful tone."⟩,
    ⟨"technical", "🔧", "Technical / Precise", "Write in a technical, expert tone."⟩,
    ⟨"humorous", "😄", "Humorous / Joke", "Write in a witty, funny tone."⟩,
    ⟨"sarcastic", "😏", "Sarcastic", "Write with dry, sharp sarcasm."⟩,
    ⟨"contrarian", "🔥", "Contrarian / Bold", "Take a strong, confident stance."⟩,
    ⟨"casual", "💬", "Casual / Friendly", "Write in a relaxed, conversational tone."⟩,
    ⟨"educational", "🎓", "Educational", "Write in a clear, informative tone."⟩,
    ⟨"inspirational", "✨", "Inspirational", "Write in an uplifting, motivating tone."⟩ ]

/-- `getTone(value)`: lookup by `value`, null if not found. -/
def getTone (value : String) : Option ToneRec :=
  TONES.find? (fun t => t.value == value)

/-- `toneInstruction(value)`: prompt fragment, empty for null/unknown tone. -/
def toneInstruction (value : Option String) : String :=
  match value with
  | none => ""
  | some v =>
    match getTone v with
    | some t => "\nTone: " ++ t.instruction
    | none => ""

/-! ## Approval protocol (`approver.js`) -/

/-- The `type` field of the action presented for approval. -/
inductive ActionType
  | tweet
  | reply
  | quote
deriving DecidableEq

/-- The `action` field of `approveAction`'s return value. -/
inductive Verdict
  | post
  | skip
  | regenerate
deriving DecidableEq

/-- Argument record of `approveAction` (`{ type, text, targetTweet, topic, tone }`). -/
structure ApproveRequest where
  type : ActionType
  text : String
  targetTweet : Option Tweet
  topic : String
  tone : Option String
deriving DecidableEq

/-- Return record of `approveAction`; `tone` is only populated in the
regenerate branch (JS leaves it `undefined` otherwise, modelled as `none`). -/
structure ApproveResult where
  action : Verdict
  text : String
  tone : Option String
deriving DecidableEq

/-- The four entries of the main `select` menu in `approveAction`. -/
inductive MenuChoice
  | approve
  | edit
  | tone
  | skip
deriving DecidableEq

/-- One operator interaction with a single presentation of `approveAction`:
the menu choice, the successive raw inputs typed at the edit prompt (the
prompt re-asks on invalid input), the answer to the "Post this?"
confirmation, and the tone picked in the tone submenu. -/
structure OperatorResponse where
  choice : MenuChoice
  editAttempts : List String
  confirmPost : Bool
  selectedTone : String
deriving DecidableEq

/-- JS `String.prototype.trim`: strip leading and trailing whitespace.
(Defined over the character list so that it evaluates by kernel
reduction.) -/
def jsTrim (s : String) : String :=
  ⟨((s.data.dropWhile Char.isWhitespace).reverse.dropWhile Char.isWhitespace).reverse⟩

/-- The `validate` callback of the edit prompt:
rejects when `!val.trim()` ("Text cannot be empty") or when
`val.length > 280` ("Too long"); the error-message strings are collapsed
to `false`. -/
def editValidate (val : String) : Bool :=
  if jsTrim val = "" then false
  else if 280 < val.length then false
  else true

/-- The re-prompt loop of the inquirer `input` with the `validate` callback:
the first attempt passing validation is the edited text; if the operator
never supplies a valid input the prompt never resolves (`none`). -/
def firstValidEdit : List String → Option String
  | [] => none
  | v :: rest => if editValidate v then some v else firstValidEdit rest

/-- `approveAction` from `approver.js`.  `isTTY` is `process.stdin.isTTY`;
`op` scripts the operator's answers to the prompts of this single
presentation.  Returns `none` when the interaction never resolves (edit
prompt with no valid input ever supplied).  Console output is not
modelled; the `disabled` marking of the currently active tone in the tone
submenu is a UI constraint on what `op.selectedTone` can be and is not
re-checked here. -/
def approveAction (isTTY : Bool) (op : OperatorResponse) (req : ApproveRequest) :
    Option ApproveResult :=
  if !isTTY then
    -- Non-interactive mode — auto-skip to avoid hanging
    some ⟨Verdict.skip, req.text, none⟩
  else
    match op.choice with
    | MenuChoice.skip => some ⟨Verdict.skip, req.text, none⟩
    | MenuChoice.edit =>
      match firstValidEdit op.editAttempts with
      | none => none
      | some edited =>
        if op.confirmPost then some ⟨Verdict.post, edited, none⟩
        else some ⟨Verdict.skip, edited, none⟩
    | MenuChoice.tone => some ⟨Verdict.regenerate, req.text, some op.selectedTone⟩
    | MenuChoice.approve => some ⟨Verdict.post, req.text, none⟩

/-! ## Cycle orchestrator (`bot.js`) -/

/-- Result of `analyzeTweets` in `ai.js` (the module catches its own
failures and degrades to a neutral analysis, so the orchestrator always
receives a value). -/
structure Analysis where
  summary : String
  themes : List String
  sentiment : String
  topEngagementTweet : Option Tweet
  engagementReason : String
deriving DecidableEq

/-- A topic config entry, restricted to the fields `runTopicCycle` reads. -/
structure Topic where
  name : String
  accounts : Option (List String)
  subjects : Option (List String)
  style : Option String
  avoid : List String
deriving DecidableEq

/-- The `settings.actions` flags. -/
structure Actions where
  postOriginal : Bool
  reply : Bool
  quoteTweet : Bool
  like : Bool
deriving DecidableEq

/-- Settings, restricted to the fields `runTopicCycle` reads.  Optional
fields model JS `?.`/`??` fallbacks. -/
structure Settings where
  tweetsPerSearch : Option Nat
  delayBetweenActions : Option Nat
  defaultStyle : String
  actions : Option Actions
  likesPerCycle : Option Nat
deriving DecidableEq

/-- Externally visible side effects of one cycle, in order of occurrence:
generator invocations (with the tone argument), publisher invocations, and
duplicate-prevention marks. -/
inductive Event
  | genTweet (tone : Option String)
  | genReply (targetId : String) (tone : Option String)
  | genQuote (targetId : String) (tone : Option String)
  | postCall (text : String)
  | replyCall (text : String) (targetId : String)
  | quoteCall (text : String) (targetId : String)
  | likeCall (id : String)
  | markedPosted (id : String)
  | markedReplied (id : String)
  | markedQuoted (id : String)
deriving DecidableEq

/-- The oracle environment: everything `runTopicCycle` consumes from
outside the core.  Functions are the determinized responses of the
external collaborators; `pickIndex` determinizes `randomPick`
(`Math.floor(Math.random() * arr.length)`), `now` determinizes
`new Date().toISOString()`.  `postTweet` returns the observable
`res?.id` of the created tweet (the publisher may also raise). -/
structure Env where
  isTTY : Bool
  now : String
  pickIndex : Nat
  getAccountTweets : String → Nat → List Tweet
  analyzeTweets : List Tweet → String → Analysis
  generateTweet : String → List String → String → List String → Option String → Option String
  generateReply : Tweet → String → String → Option String → Option String
  generateQuoteComment : Tweet → String → String → Option String → Option String
  postTweet : String → Except String (Option String)
  replyToTweet : String → String → Except String Unit
  quoteTweet : String → String → String → Except String Unit
  likeTweet : String → Except String Unit

/-- Mutable context threaded through one cycle: the duplicate-prevention
state, the not-yet-consumed operator script, and the event trace so far. -/
structure RunState where
  bot : BotState
  ops : List OperatorResponse
  trace : List Event
deriving DecidableEq

/-- The dedupe pass of `runTopicCycle`:
`filter(t => { if (seen.has(t.id)) return false; seen.add(t.id); return true })`,
with `seen` the accumulator of ids kept so far. -/
def dedupeById : List Tweet → List String → List Tweet
  | [], _ => []
  | t :: rest, seen =>
    if t.id ∈ seen then dedupeById rest seen
    else t :: dedupeById rest (t.id :: seen)

/-- Stable insertion of `x` (originally positioned before every element of
the list) into a list sorted by descending `engagementScore`: `x` goes in
front of the first element whose score is `≤` its own, so equal scores
keep original order. -/
def insertByScore (x : Tweet) : List Tweet → List Tweet
  | [] => [x]
  | y :: rest =>
    if engagementScore y ≤ engagementScore x then x :: y :: rest
    else y :: insertByScore x rest

/-- The JS `sort((a, b) => engagementScore(b) - engagementScore(a))`:
`Array.prototype.sort` is specification-stable, and a stable descending
sort is the unique permutation realized by this insertion sort. -/
def sortByScoreDesc : List Tweet → List Tweet
  | [] => []
  | x :: rest => insertByScore x (sortByScoreDesc rest)

/-- Steps 1–3 of `runTopicCycle` after the fetch: dedupe by id (first
occurrence wins), drop pure retweets, stable-sort by descending
engagement score. -/
def rankCandidates (l : List Tweet) : List Tweet :=
  sortByScoreDesc ((dedupeById l []).filter (fun t => !t.isRetweet))

/-- The fetch loop: for each configured account, fetch up to
`tweetsPerSearch` tweets and concatenate (`allTweets.push(...tweets)`). -/
def fetchAll (env : Env) (accounts : List String) (n : Nat) : List Tweet :=
  accounts.foldl (fun acc a => acc ++ env.getAccountTweets a n) []

/-- The `allTweets` list of a cycle: fetch from `topic.accounts ?? []`
with limit `settings.tweetsPerSearch ?? 20`, then dedupe/filter/rank. -/
def rankedCandidatesOf (env : Env) (topic : Topic) (settings : Settings) : List Tweet :=
  rankCandidates (fetchAll env (topic.accounts.getD []) (settings.tweetsPerSearch.getD 20))

/-- `topic.style ?? settings.defaultStyle`. -/
def styleOf (topic : Topic) (settings : Settings) : String :=
  topic.style.getD settings.defaultStyle

/-- The quote-candidate predicate of `bot.js` step 5:
`t => !hasQuoted(t.id) && engagementScore(t) > 10`. -/
def quotePred (s : BotState) (t : Tweet) : Bool :=
  !hasQuoted t.id s && decide ((10 : ℚ) < engagementScore t)

/-- The `do … while (result.action === 'regenerate')` loop shared by the
three publish branches of `runTopicCycle`: present the draft, and while
the operator picks "change tone", regenerate with the returned tone and
re-present.  `mkReq` builds the presentation record for the current
draft/tone, `gen` is the generator for this category with all
non-tone arguments fixed, and `genEvent` records a generator call.
The first generator call of a branch happens before this loop and is
recorded by the caller.  Returns the final verdict, the remaining
operator script and the extended trace; `none` when the interaction never
completes (script exhausted or an approval prompt never resolves). -/
def approveRegenLoop (isTTY : Bool) (mkReq : String → Option String → ApproveRequest)
    (gen : Option String → Option String) (genEvent : Option String → Event) :
    List OperatorResponse → String → Option String → List Event →
    Option (ApproveResult × List OperatorResponse × List Event)
  | [], _, _, _ => none
  | op :: rest, text, tone, tr =>
    match approveAction isTTY op (mkReq text tone) with
    | none => none
    | some res =>
      match res.action with
      | Verdict.regenerate =>
        let tone2 := res.tone
        let tr2 := tr ++ [genEvent tone2]
        match gen tone2 with
        | none => some (⟨Verdict.skip, "", none⟩, rest, tr2)
        | some t2 => approveRegenLoop isTTY mkReq gen genEvent rest t2 tone2 tr2
      | _ => some (res, rest, tr)

/-- Step 3 of `runTopicCycle`: post an original tweet (enabled when
`settings.actions?.postOriginal` and the topic has a non-empty subject
pool).  A publish failure is caught and logged; `markPosted` runs only
when the publish result carries an id. -/
def originalPostBranch (env : Env) (topic : Topic) (settings : Settings)
    (analysis : Analysis) (rs : RunState) : Option RunState :=
  match settings.actions with
  | none => some rs
  | some acts =>
    if acts.postOriginal then
      match topic.subjects with
      | none => some rs
      | some subjects =>
        if subjects.isEmpty then some rs
        else
          let subject := subjects.getD (env.pickIndex % subjects.length) ""
          let style := styleOf topic settings
          let gen := fun tone => env.generateTweet subject analysis.themes style topic.avoid tone
          let tr0 := rs.trace ++ [Event.genTweet none]
          match gen none with
          | none => some { rs with trace := tr0 }
          | some text =>
            match approveRegenLoop env.isTTY
                (fun t tn => ⟨ActionType.tweet, t, none, topic.name, tn⟩)
                gen Event.genTweet rs.ops text none tr0 with
            | none => none
            | some (res, ops2, tr2) =>
              if res.action = Verdict.post then
                let tr3 := tr2 ++ [Event.postCall res.text]
                match env.postTweet res.text with
                | Except.error _ => some ⟨rs.bot, ops2, tr3⟩
                | Except.ok idOpt =>
                  match idOpt with
                  | some i =>
                    some ⟨markPosted env.now i rs.bot, ops2, tr3 ++ [Event.markedPosted i]⟩
                  | none => some ⟨rs.bot, ops2, tr3⟩
              else some ⟨rs.bot, ops2, tr2⟩
    else some rs

/-- Step 4 of `runTopicCycle`: reply to the analysis-selected best tweet,
skipping entirely when `hasRepliedTo(target.id)`.  On a `post` verdict the
reply is published and `markReplied` records the target; a publish
failure is caught and does not mark. -/
def replyBranch (env : Env) (topic : Topic) (settings : Settings)
    (analysis : Analysis) (rs : RunState) : Option RunState :=
  match settings.actions with
  | none => some rs
  | some acts =>
    if acts.reply then
      match analysis.topEngagementTweet with
      | none => some rs
      | some target =>
        if hasRepliedTo target.id rs.bot then some rs
        else
          let style := styleOf topic settings
          let gen := fun tone => env.generateReply target topic.name style tone
          let tr0 := rs.trace ++ [Event.genReply target.id none]
          match gen none with
          | none => some { rs with trace := tr0 }
          | some text =>
            match approveRegenLoop env.isTTY
                (fun t tn => ⟨ActionType.reply, t, some target, topic.name, tn⟩)
                gen (Event.genReply target.id) rs.ops text none tr0 with
            | none => none
            | some (res, ops2, tr2) =>
              if res.action = Verdict.post then
                let tr3 := tr2 ++ [Event.replyCall res.text target.id]
                match env.replyToTweet res.text target.id with
                | Except.error _ => some ⟨rs.bot, ops2, tr3⟩
                | Except.ok _ =>
                  some ⟨markReplied env.now target.id rs.bot, ops2,
                    tr3 ++ [Event.markedReplied target.id]⟩
              else some ⟨rs.bot, ops2, tr2⟩
    else some rs

/-- Step 5 of `runTopicCycle`: quote-tweet the highest-ranked candidate
that is unquoted and scores strictly above 10; skip the category when no
candidate qualifies.  On a `post` verdict the quote is published and
`markQuoted` records the candidate; a publish failure is caught and does
not mark. -/
def quoteBranch (env : Env) (topic : Topic) (settings : Settings)
    (allTweets : List Tweet) (rs : RunState) : Option RunState :=
  match settings.actions with
  | none => some rs
  | some acts =>
    if acts.quoteTweet then
      match allTweets.find? (quotePred rs.bot) with
      | none => some rs
      | some candidate =>
        let style := styleOf topic settings
        let gen := fun tone => env.generateQuoteComment candidate topic.name style tone
        let tr0 := rs.trace ++ [Event.genQuote candidate.id none]
        match gen none with
        | none => some { rs with trace := tr0 }
        | some text =>
          match approveRegenLoop env.isTTY
              (fun t tn => ⟨ActionType.quote, t, some candidate, topic.name, tn⟩)
              gen (Event.genQuote candidate.id) rs.ops text none tr0 with
          | none => none
          | some (res, ops2, tr2) =>
            if res.action = Verdict.post then
              let tr3 := tr2 ++ [Event.quoteCall res.text candidate.id]
              match env.quoteTweet res.text candidate.id candidate.author with
              | Except.error _ => some ⟨rs.bot, ops2, tr3⟩
              | Except.ok _ =>
                some ⟨markQuoted env.now candidate.id rs.bot, ops2,
                  tr3 ++ [Event.markedQuoted candidate.id]⟩
            else some ⟨rs.bot, ops2, tr2⟩
    else some rs

/-- The body of the like loop in step 6: `await likeTweet(tweet.id)` for
each selected tweet.  `likeTweet` is not wrapped in a `try`, so a raised
error propagates out of the cycle — returned as `some errorMessage`. -/
def likeLoop (env : Env) : List Tweet → RunState → RunState × Option String
  | [], rs => (rs, none)
  | t :: rest, rs =>
    let rs2 : RunState := { rs with trace := rs.trace ++ [Event.likeCall t.id] }
    match env.likeTweet t.id with
    | Except.error e => (rs2, some e)
    | Except.ok _ => likeLoop env rest rs2

/-- Step 6 of `runTopicCycle`: like the top `likesPerCycle ?? 3` ranked
candidates; no approval prompt and no duplicate-prevention check. -/
def likeBranch (env : Env) (settings : Settings) (allTweets : List Tweet)
    (rs : RunState) : RunState × Option String :=
  match settings.actions with
  | none => (rs, none)
  | some acts =>
    if acts.like then likeLoop env (allTweets.take (settings.likesPerCycle.getD 3)) rs
    else (rs, none)

/-- `runTopicCycle(topic, settings)` from `bot.js`, with explicit state,
operator script and event trace.  Returns `none` when an approval
interaction never completes; otherwise `some (finalRunState, raised)`
where `raised = some e` exactly when an uncaught error (only possible
from `likeTweet`) aborts the cycle after the trace recorded so far. -/
def runTopicCycle (env : Env) (topic : Topic) (settings : Settings)
    (bot0 : BotState) (ops0 : List OperatorResponse) :
    Option (RunState × Option String) :=
  let allTweets := rankedCandidatesOf env topic settings
  if allTweets.isEmpty then some (⟨bot0, ops0, []⟩, none)
  else
    let analysis := env.analyzeTweets allTweets topic.name
    match originalPostBranch env topic settings analysis ⟨bot0, ops0, []⟩ with
    | none => none
    | some rs1 =>
      match replyBranch env topic settings analysis rs1 with
      | none => none
      | some rs2 =>
        match quoteBranch env topic settings allTweets rs2 with
        | none => none
        | some rs3 => some (likeBranch env settings allTweets rs3)

/-! ## Generic mark-operation sequences (for the bounded-history invariant) -/

/-- One mark-operation on the duplicate-prevention store. -/
inductive MarkOp
  | rep (id : String)
  | quo (id : String)
  | pos (id : String)
deriving DecidableEq

/-- Apply one mark-operation. -/
def applyMark (now : String) (s : BotState) : MarkOp → BotState
  | MarkOp.rep i => markReplied now i s
  | MarkOp.quo i => markQuoted now i s
  | MarkOp.pos i => markPosted now i s

/-- Apply a sequence of mark-operations in order. -/
def applyMarks (now : String) (ops : List MarkOp) (s : BotState) : BotState :=
  ops.foldl (applyMark now) s

/-- The ids of the `markReplied` operations of a sequence, in order. -/
def repIds (ops : List MarkOp) : List String :=
  ops.filterMap fun o => match o with | MarkOp.rep i => some i | _ => none

/-- The ids of the `markQuoted` operations of a sequence, in order. -/
def quoIds (ops : List MarkOp) : List String :=
  ops.filterMap fun o => match o with | MarkOp.quo i => some i | _ => none

/-- The ids of the `markPosted` operations of a sequence, in order. -/
def posIds (ops : List MarkOp) : List String :=
  ops.filterMap fun o => match o with | MarkOp.pos i => some i | _ => none

/-- A whitespace-only replacement text of length exactly 280. -/
def blank280 : String := ⟨List.replicate 280 ' '⟩

/-- Concrete tweets for witness scenarios: a score-1 tweet, a score-4
tweet, a duplicate of the first id, a score-1 tie, and a repost. -/
def wtA : Tweet := ⟨"a", "t1", "u1", 1, 0, 0, false⟩

def wtB : Tweet := ⟨"b", "t2", "u2", 4, 0, 0, false⟩

def wtA2 : Tweet := ⟨"a", "dup", "u3", 9, 0, 0, false⟩

def wtC : Tweet := ⟨"c", "t3", "u4", 1, 0, 0, false⟩

def wtR : Tweet := ⟨"r", "t4", "u5", 50, 0, 0, true⟩

/-- A high-engagement unquoted candidate (score 15) and a low one (score 8). -/
def wtQ1 : Tweet := ⟨"q1", "big", "u6", 15, 0, 0, false⟩

def wtQ2 : Tweet := ⟨"q2", "small", "u7", 8, 0, 0, false⟩

/-- A fully concrete oracle environment for witness scenarios. -/
def defaultEnv : Env :=
  { isTTY := true
    now := "2024-01-01T00:00:00Z"
    pickIndex := 0
    getAccountTweets := fun _ _ => []
    analyzeTweets := fun _ _ => ⟨"", [], "neutral", none, ""⟩
    generateTweet := fun _ _ _ _ _ => none
    generateReply := fun _ _ _ _ => none
    generateQuoteComment := fun _ _ _ _ => none
    postTweet := fun _ => Except.ok none
    replyToTweet := fun _ _ => Except.ok ()
    quoteTweet := fun _ _ _ => Except.ok ()
    likeTweet := fun _ => Except.ok () }

/-- A topic and settings with only the quote category enabled. -/
def topicQ : Topic := ⟨"ai", some ["acct"], none, none, []⟩

def settingsQ : Settings := ⟨some 20, none, "plain", some ⟨false, false, true, false⟩, some 3⟩

def likeIdOf : Event → Option String
  | Event.likeCall i => some i
  | _ => none

def isMarkEvent : Event → Bool
  | Event.markedPosted _ => true
  | Event.markedReplied _ => true
  | Event.markedQuoted _ => true
  | _ => false

def isReplyEventFor (p : String) : Event → Bool
  | Event.genReply q _ => q == p
  | Event.replyCall _ q => q == p
  | Event.markedReplied q => q == p
  | _ => false

def wtTarget : Tweet := ⟨"p1", "hello", "alice", 1, 0, 0, false⟩

def envRepeat : Env :=
  { isTTY := true
    now := "2024-01-02T00:00:00Z"
    pickIndex := 0
    getAccountTweets := fun _ _ => [wtTarget]
    analyzeTweets := fun _ _ => ⟨"", [], "neutral", some wtTarget, ""⟩
    generateTweet := fun _ _ _ _ _ => some "orig"
    generateReply := fun _ _ _ _ => some "rep"
    generateQuoteComment := fun _ _ _ _ => none
    postTweet := fun _ => Except.ok (some "newid")
    replyToTweet := fun _ _ => Except.ok ()
    quoteTweet := fun _ _ _ => Except.ok ()
    likeTweet := fun _ => Except.ok () }

def topicRepeat : Topic := ⟨"ai", some ["acc"], some ["s"], none, []⟩

def settingsRepeat : Settings := ⟨some 5, none, "plain", some ⟨true, true, false, false⟩, some 3⟩

/-- Environment where every publish raises but likes succeed. -/
def envFail : Env :=
  { isTTY := true
    now := "2024-01-03T00:00:00Z"
    pickIndex := 0
    getAccountTweets := fun _ _ => [wtQ1]
    analyzeTweets := fun _ _ => ⟨"", [], "neutral", some wtQ1, ""⟩
    generateTweet := fun _ _ _ _ _ => some "orig"
    generateReply := fun _ _ _ _ => some "rep"
    generateQuoteComment := fun _ _ _ _ => some "quo"
    postTweet := fun _ => Except.error "E"
    replyToTweet := fun _ _ => Except.error "E"
    quoteTweet := fun _ _ _ => Except.error "E"
    likeTweet := fun _ => Except.ok () }

def topicFail : Topic := ⟨"ai", some ["acc"], some ["s"], none, []⟩

def settingsFail : Settings := ⟨some 5, none, "plain", some ⟨true, true, true, true⟩, some 2⟩

def opApprove : OperatorResponse := ⟨MenuChoice.approve, [], true, ""⟩

def traceW4 : List Event :=
  [Event.genTweet none, Event.postCall "orig", Event.genReply "q1" none,
   Event.replyCall "rep" "q1", Event.genQuote "q1" none, Event.quoteCall "quo" "q1",
   Event.likeCall "q1"]

/-- Five candidates with strictly decreasing scores, like-only settings. -/
def wlv (i : String) (n : Nat) : Tweet := ⟨i, "t", "u", n, 0, 0, false⟩

def envLike : Env :=
  { isTTY := true
    now := "2024-01-04T00:00:00Z"
    pickIndex := 0
    getAccountTweets := fun _ _ => [wlv "a" 5, wlv "b" 4, wlv "c" 3, wlv "d" 2, wlv "e" 1]
    analyzeTweets := fun _ _ => ⟨"", [], "neutral", none, ""⟩
    generateTweet := fun _ _ _ _ _ => none
    generateReply := fun _ _ _ _ => none
    generateQuoteComment := fun _ _ _ _ => none
    postTweet := fun _ => Except.ok none
    replyToTweet := fun _ _ => Except.ok ()
    quoteTweet := fun _ _ _ => Except.ok ()
    likeTweet := fun _ => Except.ok () }

def topicLike : Topic := ⟨"ai", some ["acc"], none, none, []⟩

def settingsLike : Settings := ⟨some 20, none, "plain", some ⟨false, false, false, true⟩, some 3⟩

def traceW9 : List Event :=
  [Event.likeCall "a", Event.likeCall "b", Event.likeCall "c"]

/-- Environment whose publisher resolves successfully but returns a result
with no id. -/
def envNoId : Env :=
  { isTTY := true
    now := "2024-01-05T00:00:00Z"
    pickIndex := 0
    getAccountTweets := fun _ _ => [wtA]
    analyzeTweets := fun _ _ => ⟨"", [], "neutral", none, ""⟩
    generateTweet := fun _ _ _ _ _ => some "orig"
    generateReply := fun _ _ _ _ => none
    generateQuoteComment := fun _ _ _ _ => none
    postTweet := fun _ => Except.ok none
    replyToTweet := fun _ _ => Except.ok ()
    quoteTweet := fun _ _ _ => Except.ok ()
    likeTweet := fun _ => Except.ok () }

def topicNoId : Topic := ⟨"ai", some ["acc"], some ["s"], none, []⟩

def settingsNoId : Settings := ⟨some 5, none, "plain", some ⟨true, false, false, false⟩, some 3⟩

/-- Reply-only environment whose generator returns a first draft for a null
tone and a second draft for any chosen tone. -/
def envTone : Env :=
  { isTTY := true
    now := "2024-01-06T00:00:00Z"
    pickIndex := 0
    getAccountTweets := fun _ _ => [wtTarget]
    analyzeTweets := fun _ _ => ⟨"", [], "neutral", some wtTarget, ""⟩
    generateTweet := fun _ _ _ _ _ => none
    generateReply := fun _ _ _ tone =>
      match tone with
      | none => some "draft1"
      | some _ => some "draft2"
    generateQuoteComment := fun _ _ _ _ => none
    postTweet := fun _ => Except.ok none
    replyToTweet := fun _ _ => Except.ok ()
    quoteTweet := fun _ _ _ => Except.ok ()
    likeTweet := fun _ => Except.ok () }

def topicTone : Topic := ⟨"ai", some ["acc"], none, none, []⟩

def settingsTone : Settings := ⟨some 5, none, "plain", some ⟨false, true, false, false⟩, some 3⟩

example : approveAction true ⟨MenuChoice.approve, [], true, ""⟩
    ⟨ActionType.tweet, "hi", none, "ai", none⟩ = some ⟨Verdict.post, "hi", none⟩ := by
  decide

example : approveAction true ⟨MenuChoice.edit, ["", "ok"], true, ""⟩
    ⟨ActionType.tweet, "hi", none, "ai", none⟩ = some ⟨Verdict.post, "ok", none⟩ := by
  decide

/-! ## Lemmas about `sliceLast` -/

lemma sliceLast_length_le (n : Nat) (l : List String) : (sliceLast n l).length ≤ n := by
  simp only [sliceLast, List.length_drop]
  omega

lemma sliceLast_of_le {n : Nat} {l : List String} (h : l.length ≤ n) : sliceLast n l = l := by
  simp [sliceLast, Nat.sub_eq_zero_of_le h]

lemma sliceLast_idem (n : Nat) (l : List String) :
    sliceLast n (sliceLast n l) = sliceLast n l :=
  sliceLast_of_le (sliceLast_length_le n l)

lemma sliceLast_append_left (n : Nat) (a b : List String) :
    sliceLast n (sliceLast n a ++ b) = sliceLast n (a ++ b) := by
  rcases le_or_lt a.length n with h | h
  · rw [sliceLast_of_le h]
  · have hlen : (sliceLast n a).length = n := by
      simp only [sliceLast, List.length_drop]
      omega
    rcases le_or_lt n b.length with hb | hb
    · show (sliceLast n a ++ b).drop ((sliceLast n a ++ b).length - n) =
        (a ++ b).drop ((a ++ b).length - n)
      rw [List.length_append, List.length_append, hlen]
      have e1 : n + b.length - n = (sliceLast n a).length + (b.length - n) := by
        rw [hlen]; omega
      have e2 : a.length + b.length - n = a.length + (b.length - n) := by omega
      rw [e1, e2, List.drop_append, List.drop_append]
    · show (sliceLast n a ++ b).drop ((sliceLast n a ++ b).length - n) =
        (a ++ b).drop ((a ++ b).length - n)
      rw [List.length_append, List.length_append, hlen]
      have e1 : n + b.length - n = b.length := by omega
      rw [e1, List.drop_append_of_le_length (by rw [hlen]; omega),
        List.drop_append_of_le_length (by omega)]
      congr 1
      show (a.drop (a.length - n)).drop b.length = a.drop (a.length + b.length - n)
      rw [List.drop_drop]
      congr 1
      omega

lemma applyMarks_histories (now : String) (ops : List MarkOp) :
    ∀ s : BotState,
      s.repliedTo = sliceLast MAX_HISTORY s.repliedTo →
      s.quotedTweets = sliceLast MAX_HISTORY s.quotedTweets →
      s.postedTweets = sliceLast MAX_HISTORY s.postedTweets →
      (applyMarks now ops s).repliedTo = sliceLast MAX_HISTORY (s.repliedTo ++ repIds ops) ∧
      (applyMarks now ops s).quotedTweets = sliceLast MAX_HISTORY (s.quotedTweets ++ quoIds ops) ∧
      (applyMarks now ops s).postedTweets = sliceLast MAX_HISTORY (s.postedTweets ++ posIds ops) := by
  induction ops with
  | nil =>
    intro s h1 h2 h3
    simp only [applyMarks, List.foldl_nil, repIds, quoIds, posIds, List.filterMap_nil,
      List.append_nil]
    exact ⟨h1, h2, h3⟩
  | cons op rest ih =>
    intro s h1 h2 h3
    have step : applyMarks now (op :: rest) s = applyMarks now rest (applyMark now s op) := rfl
    cases op with
    | rep i =>
      have h := ih (applyMark now s (MarkOp.rep i))
        (by simp [applyMark, markReplied, saveState, sliceLast_idem])
        (by simp [applyMark, markReplied, saveState, sliceLast_idem])
        (by simp [applyMark, markReplied, saveState, sliceLast_idem])
      rw [step]
      refine ⟨?_, ?_, ?_⟩
      · rw [h.1]
        show sliceLast MAX_HISTORY (sliceLast MAX_HISTORY (s.repliedTo ++ [i]) ++ repIds rest) = _
        rw [sliceLast_append_left, List.append_assoc]
        rfl
      · rw [h.2.1]
        show sliceLast MAX_HISTORY (sliceLast MAX_HISTORY s.quotedTweets ++ quoIds rest) = _
        rw [← h2]
        rfl
      · rw [h.2.2]
        show sliceLast MAX_HISTORY (sliceLast MAX_HISTORY s.postedTweets ++ posIds rest) = _
        rw [← h3]
        rfl
    | quo i =>
      have h := ih (applyMark now s (MarkOp.quo i))
        (by simp [applyMark, markQuoted, saveState, sliceLast_idem])
        (by simp [applyMark, markQuoted, saveState, sliceLast_idem])
        (by simp [applyMark, markQuoted, saveState, sliceLast_idem])
      rw [step]
      refine ⟨?_, ?_, ?_⟩
      · rw [h.1]
        show sliceLast MAX_HISTORY (sliceLast MAX_HISTORY s.repliedTo ++ repIds rest) = _
        rw [← h1]
        rfl
      · rw [h.2.1]
        show sliceLast MAX_HISTORY (sliceLast MAX_HISTORY (s.quotedTweets ++ [i]) ++ quoIds rest) = _
        rw [sliceLast_append_left, List.append_assoc]
        rfl
      · rw [h.2.2]
        show sliceLast MAX_HISTORY (sliceLast MAX_HISTORY s.postedTweets ++ posIds rest) = _
        rw [← h3]
        rfl
    | pos i =>
      have h := ih (applyMark now s (MarkOp.pos i))
        (by simp [applyMark, markPosted, saveState, sliceLast_idem])
        (by simp [applyMark, markPosted, saveState, sliceLast_idem])
        (by simp [applyMark, markPosted, saveState, sliceLast_idem])
      rw [step]
      refine ⟨?_, ?_, ?_⟩
      · rw [h.1]
        show sliceLast MAX_HISTORY (sliceLast MAX_HISTORY s.repliedTo ++ repIds rest) = _
        rw [← h1]
        rfl
      · rw [h.2.1]
        show sliceLast MAX_HISTORY (sliceLast MAX_HISTORY s.quotedTweets ++ quoIds rest) = _
        rw [← h2]
        rfl
      · rw [h.2.2]
        show sliceLast MAX_HISTORY (sliceLast MAX_HISTORY (s.postedTweets ++ [i]) ++ posIds rest) = _
        rw [sliceLast_append_left, List.append_assoc]
        rfl

/-! ## Claim theorems: approval protocol and store -/

/-- C1: for every action kind and every presented draft, if the invoking
process has no interactive terminal attached (`isTTY = false`),
`approveAction` returns a skip verdict carrying the presented text — the
result is the same for every operator script, i.e. no prompt is issued
and no operator input is read. -/
theorem approveAction_non_interactive_skips (op : OperatorResponse) (req : ApproveRequest) :
    approveAction false op req = some ⟨Verdict.skip, req.text, none⟩ := rfl

/-- C3: after any sequence of mark-operations starting from the initial
empty state, each of the three durable id-sequences (`repliedTo`,
`quotedTweets`, `postedTweets`) equals exactly the most-recently-marked
ids of its kind, in marking order, truncated to the last
`MAX_HISTORY = 500` (oldest evicted first); consequently each has length
at most 500.  The final conjunct shows the truncation is (re)applied by
every single mutation, from any store state. -/
theorem markOps_bounded_history (now : String) (ops : List MarkOp) :
    (applyMarks now ops initialState).repliedTo = sliceLast MAX_HISTORY (repIds ops) ∧
    (applyMarks now ops initialState).quotedTweets = sliceLast MAX_HISTORY (quoIds ops) ∧
    (applyMarks now ops initialState).postedTweets = sliceLast MAX_HISTORY (posIds ops) ∧
    (applyMarks now ops initialState).repliedTo.length ≤ MAX_HISTORY ∧
    (applyMarks now ops initialState).quotedTweets.length ≤ MAX_HISTORY ∧
    (applyMarks now ops initialState).postedTweets.length ≤ MAX_HISTORY ∧
    ∀ (t : BotState) (o : MarkOp),
      (applyMark now t o).repliedTo.length ≤ MAX_HISTORY ∧
      (applyMark now t o).quotedTweets.length ≤ MAX_HISTORY ∧
      (applyMark now t o).postedTweets.length ≤ MAX_HISTORY := by
  obtain ⟨h1, h2, h3⟩ := applyMarks_histories now ops initialState rfl rfl rfl
  have e0 : initialState.repliedTo = [] := rfl
  have e0q : initialState.quotedTweets = [] := rfl
  have e0p : initialState.postedTweets = [] := rfl
  rw [e0, List.nil_append] at h1
  rw [e0q, List.nil_append] at h2
  rw [e0p, List.nil_append] at h3
  refine ⟨h1, h2, h3, ?_, ?_, ?_, ?_⟩
  · rw [h1]; exact sliceLast_length_le _ _
  · rw [h2]; exact sliceLast_length_le _ _
  · rw [h3]; exact sliceLast_length_le _ _
  · intro t o
    cases o <;>
      exact ⟨sliceLast_length_le _ _, sliceLast_length_le _ _, sliceLast_length_le _ _⟩

/-- C6 counterexample: the claim "a replacement text of length exactly 280
is accepted" is false: `blank280` has length exactly 280 yet the edit
validation rejects it (`!val.trim()` fires), so an edit interaction
supplying only this replacement is re-prompted and never accepted. -/
theorem edit_len280_not_always_accepted :
    blank280.length = 280 ∧ editValidate blank280 = false ∧
    approveAction true ⟨MenuChoice.edit, [blank280], true, "serious"⟩
      ⟨ActionType.tweet, "draft", none, "ai", none⟩ = none := by
  decide

/-- C6 (amended): in the edit path, a replacement text that is blank
(empty or whitespace-only) or that exceeds 280 characters is rejected and
the operator is re-prompted (invalid attempts are skipped until the first
valid one), while any replacement of length at most 280 containing a
non-whitespace character — in particular of length exactly 280 — is
accepted; a valid edit is returned by `approveAction` with the confirmed
verdict. -/
theorem edit_validation_bounds :
    (editValidate "" = false) ∧
    (∀ s : String, jsTrim s = "" → editValidate s = false) ∧
    (∀ s : String, 280 < s.length → editValidate s = false) ∧
    (∀ s : String, s.length ≤ 280 → jsTrim s ≠ "" → editValidate s = true) ∧
    (∀ (bad : List String) (good : String) (rest : List String),
      (∀ x ∈ bad, editValidate x = false) → editValidate good = true →
      firstValidEdit (bad ++ good :: rest) = some good) ∧
    (∀ (op : OperatorResponse) (req : ApproveRequest) (e : String),
      op.choice = MenuChoice.edit → firstValidEdit op.editAttempts = some e →
      approveAction true op req =
        some ⟨if op.confirmPost then Verdict.post else Verdict.skip, e, none⟩) := by
  refine ⟨by decide, ?_, ?_, ?_, ?_, ?_⟩
  · intro s h
    simp [editValidate, h]
  · intro s h
    simp [editValidate, h]
  · intro s h1 h2
    simp [editValidate, h2, Nat.not_lt.mpr h1]
  · intro bad good rest hbad hgood
    induction bad with
    | nil => simp [firstValidEdit, hgood]
    | cons x xs ih =>
      have hx : editValidate x = false := hbad x (List.mem_cons_self x xs)
      simp only [List.cons_append, firstValidEdit, hx, Bool.false_eq_true, if_false]
      exact ih fun y hy => hbad y (List.mem_cons_of_mem x hy)
  · intro op req e h1 h2
    unfold approveAction
    rw [h1]
    simp only [Bool.not_true, Bool.false_eq_true, if_false, h2]
    cases hc : op.confirmPost <;> simp

/-- Witness for C6 (amended): a 280-character non-blank text is accepted,
an over-length text is rejected, invalid attempts are skipped until the
first valid one, and a confirmed valid edit yields a post verdict. -/
theorem edit_validation_bounds_witness :
    editValidate ⟨List.replicate 280 'a'⟩ = true ∧
    editValidate ⟨List.replicate 281 'a'⟩ = false ∧
    firstValidEdit (["", "   "] ++ "ok" :: []) = some "ok" ∧
    approveAction true ⟨MenuChoice.edit, ["ok"], true, ""⟩
      ⟨ActionType.reply, "d", none, "t", none⟩ = some ⟨Verdict.post, "ok", none⟩ := by
  refine ⟨edit_validation_bounds.2.2.2.1 _ (by decide) (by decide),
    edit_validation_bounds.2.2.1 _ (by decide),
    edit_validation_bounds.2.2.2.2.1 ["", "   "] "ok" [] (by decide) (by decide), ?_⟩
  have h := edit_validation_bounds.2.2.2.2.2 ⟨MenuChoice.edit, ["ok"], true, ""⟩
    ⟨ActionType.reply, "d", none, "t", none⟩ "ok" rfl (by decide)
  simpa using h

/-! ## Lemmas about the ranking pass -/

lemma insertByScore_perm (x : Tweet) (l : List Tweet) :
    (insertByScore x l).Perm (x :: l) := by
  induction l with
  | nil => simp [insertByScore]
  | cons y rest ih =>
    unfold insertByScore
    split
    · exact List.Perm.refl _
    · exact (ih.cons y).trans (List.Perm.swap x y rest)

lemma sortByScoreDesc_perm (l : List Tweet) : (sortByScoreDesc l).Perm l := by
  induction l with
  | nil => simp [sortByScoreDesc]
  | cons x rest ih =>
    exact (insertByScore_perm x (sortByScoreDesc rest)).trans (ih.cons x)

lemma insertByScore_pairwise (x : Tweet) (l : List Tweet)
    (h : l.Pairwise fun a b => engagementScore b ≤ engagementScore a) :
    (insertByScore x l).Pairwise fun a b => engagementScore b ≤ engagementScore a := by
  induction l with
  | nil => simp [insertByScore]
  | cons y rest ih =>
    rw [List.pairwise_cons] at h
    obtain ⟨hy, hrest⟩ := h
    unfold insertByScore
    split
    case isTrue hle =>
      rw [List.pairwise_cons]
      refine ⟨?_, List.pairwise_cons.mpr ⟨hy, hrest⟩⟩
      intro b hb
      rcases List.mem_cons.mp hb with rfl | hb'
      · exact hle
      · exact le_trans (hy b hb') hle
    case isFalse hgt =>
      rw [List.pairwise_cons]
      refine ⟨?_, ih hrest⟩
      intro b hb
      rcases List.mem_cons.mp ((insertByScore_perm x rest).mem_iff.mp hb) with rfl | hb'
      · exact le_of_lt (lt_of_not_le hgt)
      · exact hy b hb'

lemma sortByScoreDesc_pairwise (l : List Tweet) :
    (sortByScoreDesc l).Pairwise fun a b => engagementScore b ≤ engagementScore a := by
  induction l with
  | nil => simp [sortByScoreDesc]
  | cons x rest ih => exact insertByScore_pairwise x _ ih

lemma insertByScore_filter (x : Tweet) (q : ℚ) (l : List Tweet) :
    (insertByScore x l).filter (fun t => decide (engagementScore t = q)) =
      if engagementScore x = q
      then x :: l.filter (fun t => decide (engagementScore t = q))
      else l.filter (fun t => decide (engagementScore t = q)) := by
  induction l with
  | nil =>
    by_cases hx : engagementScore x = q <;> simp [insertByScore, hx]
  | cons y rest ih =>
    unfold insertByScore
    split
    case isTrue hle =>
      by_cases hx : engagementScore x = q <;> simp [List.filter_cons, hx]
    case isFalse hgt =>
      by_cases hx : engagementScore x = q
      · have hy : ¬(engagementScore y = q) := by
          intro hyq
          exact hgt (le_of_eq (hx ▸ hyq : engagementScore y = engagementScore x))
        simp [List.filter_cons, hx, hy, ih]
      · simp [List.filter_cons, hx, ih]

lemma sortByScoreDesc_filter (q : ℚ) (l : List Tweet) :
    (sortByScoreDesc l).filter (fun t => decide (engagementScore t = q)) =
      l.filter (fun t => decide (engagementScore t = q)) := by
  induction l with
  | nil => rfl
  | cons x rest ih =>
    show (insertByScore x (sortByScoreDesc rest)).filter _ = _
    rw [insertByScore_filter]
    by_cases hx : engagementScore x = q <;> simp [List.filter_cons, hx, ih]

/-! ## Lemmas about the dedupe pass -/

lemma dedupeById_sublist : ∀ (l : List Tweet) (seen : List String),
    (dedupeById l seen).Sublist l
  | [], _ => List.Sublist.refl _
  | t :: rest, seen => by
    unfold dedupeById
    split
    · exact (dedupeById_sublist rest seen).cons t
    · exact (dedupeById_sublist rest (t.id :: seen)).cons₂ t

lemma dedupeById_not_seen : ∀ (l : List Tweet) (seen : List String) (t : Tweet),
    t ∈ dedupeById l seen → t.id ∉ seen
  | [], _, _ => by simp [dedupeById]
  | x :: rest, seen, t => by
    unfold dedupeById
    split
    case isTrue h => exact dedupeById_not_seen rest seen t
    case isFalse h =>
      intro ht
      rcases List.mem_cons.mp ht with rfl | ht'
      · exact h
      · exact fun hs =>
          dedupeById_not_seen rest (x.id :: seen) t ht' (List.mem_cons_of_mem _ hs)
  termination_by l => l.length

lemma dedupeById_first : ∀ (l : List Tweet) (seen : List String) (t : Tweet),
    t ∈ dedupeById l seen → l.find? (fun u => u.id == t.id) = some t
  | [], _, _ => by simp [dedupeById]
  | x :: rest, seen, t => by
    unfold dedupeById
    split
    case isTrue h =>
      intro ht
      have hne : (x.id == t.id) = false := by
        refine beq_eq_false_iff_ne.mpr fun he => ?_
        exact dedupeById_not_seen rest seen t ht (he ▸ h)
      rw [List.find?_cons, hne]
      exact dedupeById_first rest seen t ht
    case isFalse h =>
      intro ht
      rcases List.mem_cons.mp ht with rfl | ht'
      · rw [List.find?_cons, beq_self_eq_true]
      · have hid := dedupeById_not_seen rest (x.id :: seen) t ht'
        have hne : (x.id == t.id) = false := by
          refine beq_eq_false_iff_ne.mpr fun he => ?_
          exact hid (he ▸ List.mem_cons_self _ _)
        rw [List.find?_cons, hne]
        exact dedupeById_first rest (x.id :: seen) t ht'
  termination_by l => l.length

lemma dedupeById_nodup_ids : ∀ (l : List Tweet) (seen : List String),
    ((dedupeById l seen).map Tweet.id).Nodup
  | [], _ => by simp [dedupeById]
  | x :: rest, seen => by
    unfold dedupeById
    split
    case isTrue h => exact dedupeById_nodup_ids rest seen
    case isFalse h =>
      rw [List.map_cons, List.nodup_cons]
      refine ⟨?_, dedupeById_nodup_ids rest (x.id :: seen)⟩
      intro hmem
      obtain ⟨u, hu, hue⟩ := List.mem_map.mp hmem
      exact dedupeById_not_seen rest (x.id :: seen) u hu (hue ▸ List.mem_cons_self _ _)
  termination_by l => l.length

lemma dedupeById_covers : ∀ (l : List Tweet) (seen : List String) (t : Tweet),
    t ∈ l → t.id ∉ seen → ∃ u ∈ dedupeById l seen, u.id = t.id
  | [], _, t => by simp
  | x :: rest, seen, t => by
    unfold dedupeById
    split
    case isTrue h =>
      intro ht hs
      rcases List.mem_cons.mp ht with rfl | ht'
      · exact absurd h hs
      · exact dedupeById_covers rest seen t ht' hs
    case isFalse h =>
      intro ht hs
      by_cases he : t.id = x.id
      · exact ⟨x, List.mem_cons_self _ _, he.symm⟩
      · rcases List.mem_cons.mp ht with rfl | ht'
        · exact absurd rfl he
        · obtain ⟨u, hu, hue⟩ := dedupeById_covers rest (x.id :: seen) t ht' (by
            intro hmem
            rcases List.mem_cons.mp hmem with h1 | h2
            · exact he h1
            · exact hs h2)
          exact ⟨u, List.mem_cons_of_mem _ hu, hue⟩
  termination_by l => l.length

/-- C7: the candidate ranking is a permutation of the deduplicated,
non-repost posts, ordered by non-increasing `engagementScore`
(= likes + 2·retweets + 1.5·replies); equal-score posts keep their
original relative order (the equal-score sublists of input and output
coincide, i.e. the sort is stable); the dedupe pass keeps a subsequence
of the fetch order whose ids are pairwise distinct and cover every
fetched id, each kept element being the first fetched occurrence of its
id. -/
theorem candidate_ranking_stable (l : List Tweet) :
    (rankCandidates l).Perm ((dedupeById l []).filter fun t => !t.isRetweet) ∧
    (rankCandidates l).Pairwise (fun a b => engagementScore b ≤ engagementScore a) ∧
    (∀ q : ℚ, (rankCandidates l).filter (fun t => decide (engagementScore t = q)) =
      ((dedupeById l []).filter fun t => !t.isRetweet).filter
        (fun t => decide (engagementScore t = q))) ∧
    (dedupeById l []).Sublist l ∧
    ((dedupeById l []).map Tweet.id).Nodup ∧
    (∀ t ∈ dedupeById l [], l.find? (fun u => u.id == t.id) = some t) ∧
    (∀ t ∈ l, ∃ u ∈ dedupeById l [], u.id = t.id) :=
  ⟨sortByScoreDesc_perm _, sortByScoreDesc_pairwise _, fun q => sortByScoreDesc_filter q _,
    dedupeById_sublist l [], dedupeById_nodup_ids l [],
    fun t ht => dedupeById_first l [] t ht,
    fun t ht => dedupeById_covers l [] t ht (by simp)⟩

/-- Witness for C7: on a fetch with a duplicate id, a repost and an exact
score tie, the computed ranking is descending with the tie in fetch
order, the kept duplicate is the first fetched occurrence of its id, and
the dropped duplicate's id is still covered. -/
theorem candidate_ranking_stable_witness :
    rankCandidates [wtA, wtB, wtA2, wtC, wtR] = [wtB, wtA, wtC] ∧
    [wtA, wtB, wtA2, wtC, wtR].find? (fun u => u.id == wtA.id) = some wtA ∧
    (∃ u ∈ dedupeById [wtA, wtB, wtA2, wtC, wtR] [], u.id = wtA2.id) :=
  ⟨by with_unfolding_all decide, (candidate_ranking_stable [wtA, wtB, wtA2, wtC, wtR]).2.2.2.2.2.1 wtA (by decide),
    (candidate_ranking_stable [wtA, wtB, wtA2, wtC, wtR]).2.2.2.2.2.2 wtA2 (by decide)⟩

/-! ## Quote candidate selection -/

lemma find?_eq_some_split {α : Type} (p : α → Bool) :
    ∀ (l : List α) (a : α), l.find? p = some a →
      p a = true ∧ ∃ pre post, l = pre ++ a :: post ∧ ∀ x ∈ pre, p x = false
  | [], a => by simp
  | x :: rest, a => by
    intro h
    cases hx : p x with
    | true =>
      rw [List.find?_cons, hx] at h
      obtain rfl := Option.some.inj h
      exact ⟨hx, [], rest, rfl, by simp⟩
    | false =>
      rw [List.find?_cons, hx] at h
      obtain ⟨hp, pre, post, rfl, hpre⟩ := find?_eq_some_split p rest a h
      refine ⟨hp, x :: pre, post, rfl, ?_⟩
      intro y hy
      rcases List.mem_cons.mp hy with rfl | hy'
      · exact hx
      · exact hpre y hy'

/-- C8: with the quote category enabled, the orchestrator's quote branch
selects the first candidate, in ranked order, that is unquoted and has
`engagementScore > 10`: the selected candidate satisfies both conditions
and every higher-ranked candidate fails the predicate (so in particular
an unquoted candidate scoring 8 is never chosen); when no candidate
satisfies both, the branch returns its input unchanged — the category is
skipped entirely, with no generation, approval, publish or mark. -/
theorem quote_candidate_selection (env : Env) (topic : Topic) (settings : Settings)
    (allTweets : List Tweet) (rs : RunState) (acts : Actions)
    (hacts : settings.actions = some acts) (hq : acts.quoteTweet = true) :
    (allTweets.find? (quotePred rs.bot) = none →
      quoteBranch env topic settings allTweets rs = some rs) ∧
    (∀ c, allTweets.find? (quotePred rs.bot) = some c →
      hasQuoted c.id rs.bot = false ∧ (10 : ℚ) < engagementScore c ∧
      ∃ pre post, allTweets = pre ++ c :: post ∧ ∀ t ∈ pre, quotePred rs.bot t = false) := by
  constructor
  · intro hnone
    unfold quoteBranch
    rw [hacts]
    simp only [hq, if_true]
    rw [hnone]
  · intro c hc
    obtain ⟨hp, hsplit⟩ := find?_eq_some_split (quotePred rs.bot) allTweets c hc
    have h1 : hasQuoted c.id rs.bot = false ∧ (10 : ℚ) < engagementScore c := by
      simpa [quotePred] using hp
    exact ⟨h1.1, h1.2, hsplit⟩

/-- Witness for C8: with candidates scoring 15 and 8 (both unquoted), the
score-15 one is selected and satisfies both conditions; with only the
score-8 candidate available, the quote branch is skipped unchanged. -/
theorem quote_candidate_selection_witness :
    (hasQuoted wtQ1.id initialState = false ∧ (10 : ℚ) < engagementScore wtQ1 ∧
      ∃ pre post, [wtQ1, wtQ2] = pre ++ wtQ1 :: post ∧
        ∀ t ∈ pre, quotePred initialState t = false) ∧
    quoteBranch defaultEnv topicQ settingsQ [wtQ2] ⟨initialState, [], []⟩ =
      some ⟨initialState, [], []⟩ :=
  ⟨(quote_candidate_selection defaultEnv topicQ settingsQ [wtQ1, wtQ2] ⟨initialState, [], []⟩
      ⟨false, false, true, false⟩ rfl rfl).2 wtQ1 (by with_unfolding_all decide),
    (quote_candidate_selection defaultEnv topicQ settingsQ [wtQ2] ⟨initialState, [], []⟩
      ⟨false, false, true, false⟩ rfl rfl).1 (by with_unfolding_all decide)⟩

/-! ## Branch shape lemmas and cycle decomposition -/

lemma approveRegenLoop_shape (isTTY : Bool) (mkReq : String → Option String → ApproveRequest)
    (gen : Option String → Option String) (genEvent : Option String → Event)
    (ops : List OperatorResponse) :
    ∀ (text : String) (tone : Option String) (tr : List Event)
      (res : ApproveResult) (ops2 : List OperatorResponse) (tr2 : List Event),
      approveRegenLoop isTTY mkReq gen genEvent ops text tone tr = some (res, ops2, tr2) →
      ∃ new, tr2 = tr ++ new ∧ ∀ e ∈ new, ∃ tn, e = genEvent tn := by
  induction ops with
  | nil => intro text tone tr res ops2 tr2 h; simp [approveRegenLoop] at h
  | cons op rest ih =>
    intro text tone tr res ops2 tr2 h
    unfold approveRegenLoop at h
    split at h
    · exact absurd h (by simp)
    · split at h
      · dsimp only at h
        split at h
        · simp only [Option.some.injEq, Prod.mk.injEq] at h
          obtain ⟨-, -, rfl⟩ := h
          exact ⟨_, rfl, by rintro e he; rw [List.mem_singleton] at he; exact ⟨_, he⟩⟩
        · obtain ⟨new2, rfl, hall⟩ := ih _ _ _ _ _ _ h
          refine ⟨genEvent _ :: new2, List.append_assoc _ _ _, ?_⟩
          rintro e he
          rcases List.mem_cons.mp he with rfl | he'
          · exact ⟨_, rfl⟩
          · exact hall e he'
      · simp only [Option.some.injEq, Prod.mk.injEq] at h
        obtain ⟨-, -, rfl⟩ := h
        exact ⟨[], by simp, by simp⟩

lemma originalPostBranch_shape (env : Env) (topic : Topic) (settings : Settings)
    (analysis : Analysis) (rs rs' : RunState)
    (h : originalPostBranch env topic settings analysis rs = some rs') :
    ∃ new, rs'.trace = rs.trace ++ new ∧
      (∀ e ∈ new, (∃ tn, e = Event.genTweet tn) ∨ (∃ t, e = Event.postCall t) ∨
        (∃ i, e = Event.markedPosted i)) ∧
      (∀ i, Event.markedPosted i ∈ new → ∃ t, env.postTweet t = Except.ok (some i)) ∧
      (rs'.bot = rs.bot ∨
        ∃ i t, env.postTweet t = Except.ok (some i) ∧ rs'.bot = markPosted env.now i rs.bot) := by
  unfold originalPostBranch at h
  split at h
  · obtain rfl := Option.some.inj h
    exact ⟨[], by simp, by simp, by simp, Or.inl rfl⟩
  · split at h
    · split at h
      · obtain rfl := Option.some.inj h
        exact ⟨[], by simp, by simp, by simp, Or.inl rfl⟩
      · split at h
        · obtain rfl := Option.some.inj h
          exact ⟨[], by simp, by simp, by simp, Or.inl rfl⟩
        · dsimp only at h
          split at h
          · -- gen none = none
            obtain rfl := Option.some.inj h
            refine ⟨[Event.genTweet none], rfl, ?_, by simp, Or.inl rfl⟩
            rintro e he
            rw [List.mem_singleton] at he
            exact Or.inl ⟨none, he⟩
          · -- gen none = some text
            split at h
            · exact absurd h (by simp)
            · rename_i res ops2 tr2 hloop
              obtain ⟨lnew, htr2, hall⟩ := approveRegenLoop_shape _ _ _ _ _ _ _ _ _ _ _ hloop
              split at h
              · -- post verdict
                split at h
                · -- postTweet error
                  obtain rfl := Option.some.inj h
                  refine ⟨Event.genTweet none :: (lnew ++ [Event.postCall res.text]), ?_, ?_, ?_, Or.inl rfl⟩
                  · simp [htr2]
                  · rintro e he
                    rcases List.mem_cons.mp he with rfl | he'
                    · exact Or.inl ⟨none, rfl⟩
                    rcases List.mem_append.mp he' with he'' | he''
                    · obtain ⟨tn, rfl⟩ := hall e he''
                      exact Or.inl ⟨tn, rfl⟩
                    · rw [List.mem_singleton] at he''
                      exact Or.inr (Or.inl ⟨res.text, he''⟩)
                  · rintro i hi
                    rcases List.mem_cons.mp hi with hc | hi'
                    · exact absurd hc (by simp)
                    rcases List.mem_append.mp hi' with hi'' | hi''
                    · obtain ⟨tn, he⟩ := hall _ hi''
                      exact absurd he (by simp)
                    · rw [List.mem_singleton] at hi''
                      exact absurd hi'' (by simp)
                · -- postTweet ok
                  rename_i idOpt hok
                  split at h
                  · -- some id
                    rename_i i
                    obtain rfl := Option.some.inj h
                    refine ⟨Event.genTweet none :: (lnew ++ [Event.postCall res.text, Event.markedPosted i]), ?_, ?_, ?_, Or.inr ⟨i, res.text, hok, rfl⟩⟩
                    · simp [htr2]
                    · rintro e he
                      rcases List.mem_cons.mp he with rfl | he'
                      · exact Or.inl ⟨none, rfl⟩
                      rcases List.mem_append.mp he' with he'' | he''
                      · obtain ⟨tn, rfl⟩ := hall e he''
                        exact Or.inl ⟨tn, rfl⟩
                      · rcases List.mem_cons.mp he'' with rfl | he3
                        · exact Or.inr (Or.inl ⟨res.text, rfl⟩)
                        · rw [List.mem_singleton] at he3
                          exact Or.inr (Or.inr ⟨i, he3⟩)
                    · rintro j hj
                      rcases List.mem_cons.mp hj with hc | hj'
                      · exact absurd hc (by simp)
                      rcases List.mem_append.mp hj' with hj'' | hj''
                      · obtain ⟨tn, he⟩ := hall _ hj''
                        exact absurd he (by simp)
                      · rcases List.mem_cons.mp hj'' with hc | hj3
                        · exact absurd hc (by simp)
                        · rw [List.mem_singleton] at hj3
                          obtain rfl : j = i := by injection hj3
                          exact ⟨res.text, hok⟩
                  · -- id none
                    obtain rfl := Option.some.inj h
                    refine ⟨Event.genTweet none :: (lnew ++ [Event.postCall res.text]), ?_, ?_, ?_, Or.inl rfl⟩
                    · simp [htr2]
                    · rintro e he
                      rcases List.mem_cons.mp he with rfl | he'
                      · exact Or.inl ⟨none, rfl⟩
                      rcases List.mem_append.mp he' with he'' | he''
                      · obtain ⟨tn, rfl⟩ := hall e he''
                        exact Or.inl ⟨tn, rfl⟩
                      · rw [List.mem_singleton] at he''
                        exact Or.inr (Or.inl ⟨res.text, he''⟩)
                    · rintro i hi
                      rcases List.mem_cons.mp hi with hc | hi'
                      · exact absurd hc (by simp)
                      rcases List.mem_append.mp hi' with hi'' | hi''
                      · obtain ⟨tn, he⟩ := hall _ hi''
                        exact absurd he (by simp)
                      · rw [List.mem_singleton] at hi''
                        exact absurd hi'' (by simp)
              · -- non-post verdict
                obtain rfl := Option.some.inj h
                refine ⟨Event.genTweet none :: lnew, ?_, ?_, ?_, Or.inl rfl⟩
                · simp [htr2]
                · rintro e he
                  rcases List.mem_cons.mp he with rfl | he'
                  · exact Or.inl ⟨none, rfl⟩
                  · obtain ⟨tn, rfl⟩ := hall e he'
                    exact Or.inl ⟨tn, rfl⟩
                · rintro i hi
                  rcases List.mem_cons.mp hi with hc | hi'
                  · exact absurd hc (by simp)
                  · obtain ⟨tn, he⟩ := hall _ hi'
                    exact absurd he (by simp)
    · obtain rfl := Option.some.inj h
      exact ⟨[], by simp, by simp, by simp, Or.inl rfl⟩

lemma replyBranch_shape (env : Env) (topic : Topic) (settings : Settings)
    (analysis : Analysis) (rs rs' : RunState)
    (h : replyBranch env topic settings analysis rs = some rs') :
    ∃ new, rs'.trace = rs.trace ++ new ∧
      ((new = [] ∧ rs'.bot = rs.bot) ∨
        ∃ target, analysis.topEngagementTweet = some target ∧
          hasRepliedTo target.id rs.bot = false ∧
          (∀ e ∈ new, (∃ tn, e = Event.genReply target.id tn) ∨
            (∃ t, e = Event.replyCall t target.id) ∨ e = Event.markedReplied target.id) ∧
          (∀ i, Event.markedReplied i ∈ new →
            i = target.id ∧ ∃ t, env.replyToTweet t target.id = Except.ok ()) ∧
          (rs'.bot = rs.bot ∨
            (rs'.bot = markReplied env.now target.id rs.bot ∧
              ∃ t, env.replyToTweet t target.id = Except.ok ()))) := by
  unfold replyBranch at h
  split at h
  · obtain rfl := Option.some.inj h
    exact ⟨[], by simp, Or.inl ⟨rfl, rfl⟩⟩
  · split at h
    · split at h
      · obtain rfl := Option.some.inj h
        exact ⟨[], by simp, Or.inl ⟨rfl, rfl⟩⟩
      · rename_i target htarget
        split at h
        · obtain rfl := Option.some.inj h
          exact ⟨[], by simp, Or.inl ⟨rfl, rfl⟩⟩
        · rename_i hnotrep
          dsimp only at h
          split at h
          · -- gen none
            obtain rfl := Option.some.inj h
            refine ⟨[Event.genReply target.id none], rfl,
              Or.inr ⟨target, htarget, by simpa using hnotrep, ?_, by simp, Or.inl rfl⟩⟩
            rintro e he
            rw [List.mem_singleton] at he
            exact Or.inl ⟨none, he⟩
          · split at h
            · exact absurd h (by simp)
            · rename_i res ops2 tr2 hloop
              obtain ⟨lnew, htr2, hall⟩ := approveRegenLoop_shape _ _ _ _ _ _ _ _ _ _ _ hloop
              split at h
              · split at h
                · -- replyToTweet error
                  obtain rfl := Option.some.inj h
                  refine ⟨Event.genReply target.id none :: (lnew ++ [Event.replyCall res.text target.id]),
                    by simp [htr2],
                    Or.inr ⟨target, htarget, by simpa using hnotrep, ?_, ?_, Or.inl rfl⟩⟩
                  · rintro e he
                    rcases List.mem_cons.mp he with rfl | he'
                    · exact Or.inl ⟨none, rfl⟩
                    rcases List.mem_append.mp he' with he'' | he''
                    · obtain ⟨tn, rfl⟩ := hall e he''
                      exact Or.inl ⟨tn, rfl⟩
                    · rw [List.mem_singleton] at he''
                      exact Or.inr (Or.inl ⟨res.text, he''⟩)
                  · rintro i hi
                    rcases List.mem_cons.mp hi with hc | hi'
                    · exact absurd hc (by simp)
                    rcases List.mem_append.mp hi' with hi'' | hi''
                    · obtain ⟨tn, he⟩ := hall _ hi''
                      exact absurd he (by simp)
                    · rw [List.mem_singleton] at hi''
                      exact absurd hi'' (by simp)
                · -- replyToTweet ok
                  rename_i u hok
                  obtain rfl := Option.some.inj h
                  refine ⟨Event.genReply target.id none ::
                      (lnew ++ [Event.replyCall res.text target.id, Event.markedReplied target.id]),
                    by simp [htr2],
                    Or.inr ⟨target, htarget, by simpa using hnotrep, ?_, ?_,
                      Or.inr ⟨rfl, res.text, hok⟩⟩⟩
                  · rintro e he
                    rcases List.mem_cons.mp he with rfl | he'
                    · exact Or.inl ⟨none, rfl⟩
                    rcases List.mem_append.mp he' with he'' | he''
                    · obtain ⟨tn, rfl⟩ := hall e he''
                      exact Or.inl ⟨tn, rfl⟩
                    · rcases List.mem_cons.mp he'' with rfl | he3
                      · exact Or.inr (Or.inl ⟨res.text, rfl⟩)
                      · rw [List.mem_singleton] at he3
                        exact Or.inr (Or.inr he3)
                  · rintro i hi
                    rcases List.mem_cons.mp hi with hc | hi'
                    · exact absurd hc (by simp)
                    rcases List.mem_append.mp hi' with hi'' | hi''
                    · obtain ⟨tn, he⟩ := hall _ hi''
                      exact absurd he (by simp)
                    · rcases List.mem_cons.mp hi'' with hc | hi3
                      · exact absurd hc (by simp)
                      · rw [List.mem_singleton] at hi3
                        obtain rfl : i = target.id := by injection hi3
                        exact ⟨rfl, res.text, hok⟩
              · -- non-post verdict
                obtain rfl := Option.some.inj h
                refine ⟨Event.genReply target.id none :: lnew, by simp [htr2],
                  Or.inr ⟨target, htarget, by simpa using hnotrep, ?_, ?_, Or.inl rfl⟩⟩
                · rintro e he
                  rcases List.mem_cons.mp he with rfl | he'
                  · exact Or.inl ⟨none, rfl⟩
                  · obtain ⟨tn, rfl⟩ := hall e he'
                    exact Or.inl ⟨tn, rfl⟩
                · rintro i hi
                  rcases List.mem_cons.mp hi with hc | hi'
                  · exact absurd hc (by simp)
                  · obtain ⟨tn, he⟩ := hall _ hi'
                    exact absurd he (by simp)
    · obtain rfl := Option.some.inj h
      exact ⟨[], by simp, Or.inl ⟨rfl, rfl⟩⟩

lemma quoteBranch_shape (env : Env) (topic : Topic) (settings : Settings)
    (allTweets : List Tweet) (rs rs' : RunState)
    (h : quoteBranch env topic settings allTweets rs = some rs') :
    ∃ new, rs'.trace = rs.trace ++ new ∧
      ((new = [] ∧ rs'.bot = rs.bot) ∨
        ∃ c, allTweets.find? (quotePred rs.bot) = some c ∧
          (∀ e ∈ new, (∃ tn, e = Event.genQuote c.id tn) ∨
            (∃ t, e = Event.quoteCall t c.id) ∨ e = Event.markedQuoted c.id) ∧
          (∀ i, Event.markedQuoted i ∈ new →
            i = c.id ∧ ∃ t, env.quoteTweet t c.id c.author = Except.ok ()) ∧
          (rs'.bot = rs.bot ∨
            (rs'.bot = markQuoted env.now c.id rs.bot ∧
              ∃ t, env.quoteTweet t c.id c.author = Except.ok ()))) := by
  unfold quoteBranch at h
  split at h
  · obtain rfl := Option.some.inj h
    exact ⟨[], by simp, Or.inl ⟨rfl, rfl⟩⟩
  · split at h
    · split at h
      · obtain rfl := Option.some.inj h
        exact ⟨[], by simp, Or.inl ⟨rfl, rfl⟩⟩
      · rename_i c hfind
        dsimp only at h
        split at h
        · -- gen none
          obtain rfl := Option.some.inj h
          refine ⟨[Event.genQuote c.id none], rfl,
            Or.inr ⟨c, hfind, ?_, by simp, Or.inl rfl⟩⟩
          rintro e he
          rw [List.mem_singleton] at he
          exact Or.inl ⟨none, he⟩
        · split at h
          · exact absurd h (by simp)
          · rename_i res ops2 tr2 hloop
            obtain ⟨lnew, htr2, hall⟩ := approveRegenLoop_shape _ _ _ _ _ _ _ _ _ _ _ hloop
            split at h
            · split at h
              · -- quoteTweet error
                obtain rfl := Option.some.inj h
                refine ⟨Event.genQuote c.id none :: (lnew ++ [Event.quoteCall res.text c.id]),
                  by simp [htr2],
                  Or.inr ⟨c, hfind, ?_, ?_, Or.inl rfl⟩⟩
                · rintro e he
                  rcases List.mem_cons.mp he with rfl | he'
                  · exact Or.inl ⟨none, rfl⟩
                  rcases List.mem_append.mp he' with he'' | he''
                  · obtain ⟨tn, rfl⟩ := hall e he''
                    exact Or.inl ⟨tn, rfl⟩
                  · rw [List.mem_singleton] at he''
                    exact Or.inr (Or.inl ⟨res.text, he''⟩)
                · rintro i hi
                  rcases List.mem_cons.mp hi with hc | hi'
                  · exact absurd hc (by simp)
                  rcases List.mem_append.mp hi' with hi'' | hi''
                  · obtain ⟨tn, he⟩ := hall _ hi''
                    exact absurd he (by simp)
                  · rw [List.mem_singleton] at hi''
                    exact absurd hi'' (by simp)
              · -- quoteTweet ok
                rename_i u hok
                obtain rfl := Option.some.inj h
                refine ⟨Event.genQuote c.id none ::
                    (lnew ++ [Event.quoteCall res.text c.id, Event.markedQuoted c.id]),
                  by simp [htr2],
                  Or.inr ⟨c, hfind, ?_, ?_, Or.inr ⟨rfl, res.text, hok⟩⟩⟩
                · rintro e he
                  rcases List.mem_cons.mp he with rfl | he'
                  · exact Or.inl ⟨none, rfl⟩
                  rcases List.mem_append.mp he' with he'' | he''
                  · obtain ⟨tn, rfl⟩ := hall e he''
                    exact Or.inl ⟨tn, rfl⟩
                  · rcases List.mem_cons.mp he'' with rfl | he3
                    · exact Or.inr (Or.inl ⟨res.text, rfl⟩)
                    · rw [List.mem_singleton] at he3
                      exact Or.inr (Or.inr he3)
                · rintro i hi
                  rcases List.mem_cons.mp hi with hc | hi'
                  · exact absurd hc (by simp)
                  rcases List.mem_append.mp hi' with hi'' | hi''
                  · obtain ⟨tn, he⟩ := hall _ hi''
                    exact absurd he (by simp)
                  · rcases List.mem_cons.mp hi'' with hc | hi3
                    · exact absurd hc (by simp)
                    · rw [List.mem_singleton] at hi3
                      obtain rfl : i = c.id := by injection hi3
                      exact ⟨rfl, res.text, hok⟩
            · -- non-post verdict
              obtain rfl := Option.some.inj h
              refine ⟨Event.genQuote c.id none :: lnew, by simp [htr2],
                Or.inr ⟨c, hfind, ?_, ?_, Or.inl rfl⟩⟩
              · rintro e he
                rcases List.mem_cons.mp he with rfl | he'
                · exact Or.inl ⟨none, rfl⟩
                · obtain ⟨tn, rfl⟩ := hall e he'
                  exact Or.inl ⟨tn, rfl⟩
              · rintro i hi
                rcases List.mem_cons.mp hi with hc | hi'
                · exact absurd hc (by simp)
                · obtain ⟨tn, he⟩ := hall _ hi'
                  exact absurd he (by simp)
    · obtain rfl := Option.some.inj h
      exact ⟨[], by simp, Or.inl ⟨rfl, rfl⟩⟩

lemma likeLoop_shape (env : Env) : ∀ (l : List Tweet) (rs : RunState),
    (likeLoop env l rs).1.bot = rs.bot ∧ (likeLoop env l rs).1.ops = rs.ops ∧
    ∃ new, (likeLoop env l rs).1.trace = rs.trace ++ new ∧ ∀ e ∈ new, ∃ i, e = Event.likeCall i
  | [], rs => ⟨rfl, rfl, [], by simp [likeLoop], by simp⟩
  | t :: rest, rs => by
    unfold likeLoop
    split
    · exact ⟨rfl, rfl, [Event.likeCall t.id], by simp, by
        rintro e he
        rw [List.mem_singleton] at he
        exact ⟨t.id, he⟩⟩
    · obtain ⟨hbot, hops, new, htr, hall⟩ :=
        likeLoop_shape env rest ⟨rs.bot, rs.ops, rs.trace ++ [Event.likeCall t.id]⟩
      refine ⟨hbot, hops, Event.likeCall t.id :: new, by simpa [List.append_assoc] using htr, ?_⟩
      rintro e he
      rcases List.mem_cons.mp he with rfl | he'
      · exact ⟨t.id, rfl⟩
      · exact hall e he'

lemma likeLoop_all_ok (env : Env) : ∀ (l : List Tweet) (rs : RunState),
    (∀ t ∈ l, env.likeTweet t.id = Except.ok ()) →
    likeLoop env l rs =
      ({ rs with trace := rs.trace ++ l.map fun t => Event.likeCall t.id }, none)
  | [], rs => by simp [likeLoop]
  | t :: rest, rs => by
    intro hok
    unfold likeLoop
    rw [hok t (List.mem_cons_self _ _)]
    dsimp only
    rw [likeLoop_all_ok env rest _ fun u hu => hok u (List.mem_cons_of_mem _ hu)]
    simp [List.append_assoc]

lemma likeBranch_shape (env : Env) (settings : Settings) (l : List Tweet) (rs : RunState) :
    (likeBranch env settings l rs).1.bot = rs.bot ∧
    (likeBranch env settings l rs).1.ops = rs.ops ∧
    ∃ new, (likeBranch env settings l rs).1.trace = rs.trace ++ new ∧
      ∀ e ∈ new, ∃ i, e = Event.likeCall i := by
  unfold likeBranch
  split
  · exact ⟨rfl, rfl, [], by simp, by simp⟩
  · split
    · exact likeLoop_shape env _ rs
    · exact ⟨rfl, rfl, [], by simp, by simp⟩

lemma likeBranch_all_ok (env : Env) (settings : Settings) (acts : Actions)
    (l : List Tweet) (rs : RunState)
    (hacts : settings.actions = some acts) (hlike : acts.like = true)
    (hok : ∀ i, env.likeTweet i = Except.ok ()) :
    likeBranch env settings l rs =
      ({ rs with trace := rs.trace ++
          (l.take (settings.likesPerCycle.getD 3)).map fun t => Event.likeCall t.id }, none) := by
  unfold likeBranch
  rw [hacts]
  simp only [hlike, if_true]
  exact likeLoop_all_ok env _ rs fun t _ => hok t.id

lemma runTopicCycle_some (env : Env) (topic : Topic) (settings : Settings)
    (bot0 : BotState) (ops0 : List OperatorResponse) (rs : RunState) (exit2 : Option String)
    (h : runTopicCycle env topic settings bot0 ops0 = some (rs, exit2)) :
    (rankedCandidatesOf env topic settings = [] ∧ rs = ⟨bot0, ops0, []⟩ ∧ exit2 = none) ∨
    (rankedCandidatesOf env topic settings ≠ [] ∧ ∃ rs1 rs2 rs3,
      originalPostBranch env topic settings
        (env.analyzeTweets (rankedCandidatesOf env topic settings) topic.name)
        ⟨bot0, ops0, []⟩ = some rs1 ∧
      replyBranch env topic settings
        (env.analyzeTweets (rankedCandidatesOf env topic settings) topic.name) rs1 = some rs2 ∧
      quoteBranch env topic settings (rankedCandidatesOf env topic settings) rs2 = some rs3 ∧
      likeBranch env settings (rankedCandidatesOf env topic settings) rs3 = (rs, exit2)) := by
  unfold runTopicCycle at h
  dsimp only at h
  split at h
  · rename_i hemp
    injection h with h'
    injection h' with ha hb
    exact Or.inl ⟨by simpa using hemp, ha.symm, hb.symm⟩
  · rename_i hemp
    split at h
    · exact absurd h (by simp)
    · rename_i rs1 h1
      split at h
      · exact absurd h (by simp)
      · rename_i rs2 h2
        split at h
        · exact absurd h (by simp)
        · rename_i rs3 h3
          exact Or.inr ⟨by simpa using hemp, rs1, rs2, rs3, h1, h2, h3, Option.some.inj h⟩

lemma markPosted_repliedTo (now i : String) (b : BotState)
    (h : b.repliedTo.length ≤ MAX_HISTORY) :
    (markPosted now i b).repliedTo = b.repliedTo := sliceLast_of_le h

lemma markReplied_postedTweets (now i : String) (b : BotState)
    (h : b.postedTweets.length ≤ MAX_HISTORY) :
    (markReplied now i b).postedTweets = b.postedTweets := sliceLast_of_le h

lemma markQuoted_postedTweets (now i : String) (b : BotState)
    (h : b.postedTweets.length ≤ MAX_HISTORY) :
    (markQuoted now i b).postedTweets = b.postedTweets := sliceLast_of_le h

/-- C2: if `hasRepliedTo p` holds at the start of a cycle (and the stored
reply history respects its 500-entry bound, as every state produced by the
store does), then the cycle's trace contains no reply event for `p`: no
reply-draft generation, no reply publish, and no `markReplied` targeting
`p`.  Hence across any sequence of cycles `markReplied p` occurs at most
once while `p` remains in the bounded history, and only an eviction of
`p` can enable a second mark. -/
theorem no_reply_when_already_replied (env : Env) (topic : Topic) (settings : Settings)
    (bot0 : BotState) (ops0 : List OperatorResponse) (rs : RunState)
    (exit2 : Option String) (p : String)
    (hbound : bot0.repliedTo.length ≤ MAX_HISTORY)
    (hp : hasRepliedTo p bot0 = true)
    (hrun : runTopicCycle env topic settings bot0 ops0 = some (rs, exit2)) :
    ∀ e ∈ rs.trace, isReplyEventFor p e = false := by
  rcases runTopicCycle_some _ _ _ _ _ _ _ hrun with ⟨-, rfl, -⟩ |
    ⟨-, rs1, rs2, rs3, h1, h2, h3, h4⟩
  · intro e he
    simp at he
  · obtain ⟨new1, htr1, hsh1, hmk1, hbot1⟩ := originalPostBranch_shape _ _ _ _ _ _ h1
    have hrep1 : hasRepliedTo p rs1.bot = true := by
      rcases hbot1 with hb | ⟨i, t, -, hb⟩
      · rw [hb]
        exact hp
      · rw [hb]
        unfold hasRepliedTo
        rw [markPosted_repliedTo _ _ _ hbound]
        exact hp
    obtain ⟨new2, htr2, hsh2⟩ := replyBranch_shape _ _ _ _ _ _ h2
    obtain ⟨new3, htr3, hsh3⟩ := quoteBranch_shape _ _ _ _ _ _ h3
    have hrs : (likeBranch env settings (rankedCandidatesOf env topic settings) rs3).1 = rs := by
      rw [h4]
    obtain ⟨-, -, new4, htr4, hsh4⟩ := likeBranch_shape env settings
      (rankedCandidatesOf env topic settings) rs3
    rw [hrs] at htr4
    intro e he
    rw [htr4, htr3, htr2, htr1] at he
    simp only [List.mem_append] at he
    rcases he with (((he | he) | he) | he) | he
    · -- initial trace of ⟨bot0, ops0, []⟩ is []
      simp at he
    · -- original-post events
      rcases hsh1 e he with ⟨tn, rfl⟩ | ⟨t, rfl⟩ | ⟨i, rfl⟩ <;> rfl
    · -- reply-branch events
      rcases hsh2 with ⟨rfl, -⟩ | ⟨target, -, hnr, hsh, -, -⟩
      · simp at he
      · have hne : (target.id == p) = false := by
          refine beq_eq_false_iff_ne.mpr fun hid => ?_
          rw [hid] at hnr
          rw [hnr] at hrep1
          exact Bool.false_ne_true hrep1
        rcases hsh e he with ⟨tn, rfl⟩ | ⟨t, rfl⟩ | rfl <;>
          simpa [isReplyEventFor] using hne
    · -- quote-branch events
      rcases hsh3 with ⟨rfl, -⟩ | ⟨c, -, hsh, -, -⟩
      · simp at he
      · rcases hsh e he with ⟨tn, rfl⟩ | ⟨t, rfl⟩ | rfl <;> rfl
    · -- like events
      obtain ⟨i, rfl⟩ := hsh4 e he
      rfl

/-- Witness for C2: a cycle over a state that already replied to `p1`
posts an original tweet but produces no reply event for `p1` — checked
here on each of the three events the cycle emitted. -/
theorem no_reply_when_already_replied_witness :
    isReplyEventFor "p1" (Event.genTweet none) = false ∧
    isReplyEventFor "p1" (Event.postCall "orig") = false ∧
    isReplyEventFor "p1" (Event.markedPosted "newid") = false :=
  ⟨no_reply_when_already_replied envRepeat topicRepeat settingsRepeat
      ⟨["p1"], [], [], none⟩ [⟨MenuChoice.approve, [], true, ""⟩]
      ⟨⟨["p1"], [], ["newid"], some "2024-01-02T00:00:00Z"⟩, [],
        [Event.genTweet none, Event.postCall "orig", Event.markedPosted "newid"]⟩ none "p1"
      (by decide) (by decide) (by decide) (Event.genTweet none) (by decide),
    no_reply_when_already_replied envRepeat topicRepeat settingsRepeat
      ⟨["p1"], [], [], none⟩ [⟨MenuChoice.approve, [], true, ""⟩]
      ⟨⟨["p1"], [], ["newid"], some "2024-01-02T00:00:00Z"⟩, [],
        [Event.genTweet none, Event.postCall "orig", Event.markedPosted "newid"]⟩ none "p1"
      (by decide) (by decide) (by decide) (Event.postCall "orig") (by decide),
    no_reply_when_already_replied envRepeat topicRepeat settingsRepeat
      ⟨["p1"], [], [], none⟩ [⟨MenuChoice.approve, [], true, ""⟩]
      ⟨⟨["p1"], [], ["newid"], some "2024-01-02T00:00:00Z"⟩, [],
        [Event.genTweet none, Event.postCall "orig", Event.markedPosted "newid"]⟩ none "p1"
      (by decide) (by decide) (by decide) (Event.markedPosted "newid") (by decide)⟩

lemma filterMap_some_eq_map {α β : Type} (f : α → β) (l : List α) :
    l.filterMap (fun a => some (f a)) = l.map f := by
  induction l with
  | nil => rfl
  | cons a rest ih => simp [List.filterMap_cons, ih]

/-- C4: when every publish call raises, a completed cycle leaves the
duplicate-prevention state untouched (`rs.bot = bot0`), its trace contains
no mark event whatsoever (the corresponding `markPosted` / `markReplied` /
`markQuoted` is not performed), and the remaining like category still
runs in full: with likes succeeding, the cycle ends without an uncaught
error and the liked ids are exactly the top-`likesPerCycle` ranked
candidates — the publish failures are caught and do not abort the
cycle. -/
theorem publish_failure_isolated (env : Env) (topic : Topic) (settings : Settings)
    (bot0 : BotState) (ops0 : List OperatorResponse) (rs : RunState) (exit2 : Option String)
    (hpost : ∀ t, ∃ e, env.postTweet t = Except.error e)
    (hrep : ∀ t i, ∃ e, env.replyToTweet t i = Except.error e)
    (hquo : ∀ t i a, ∃ e, env.quoteTweet t i a = Except.error e)
    (hrun : runTopicCycle env topic settings bot0 ops0 = some (rs, exit2)) :
    rs.bot = bot0 ∧
    (∀ e ∈ rs.trace, isMarkEvent e = false) ∧
    (∀ acts, settings.actions = some acts → acts.like = true →
      (∀ i, env.likeTweet i = Except.ok ()) →
      exit2 = none ∧
      rs.trace.filterMap likeIdOf =
        ((rankedCandidatesOf env topic settings).take
          (settings.likesPerCycle.getD 3)).map Tweet.id) := by
  rcases runTopicCycle_some _ _ _ _ _ _ _ hrun with ⟨hnil, rfl, rfl⟩ |
    ⟨-, rs1, rs2, rs3, h1, h2, h3, h4⟩
  · refine ⟨rfl, by simp, ?_⟩
    intro acts hacts hlike hok
    refine ⟨rfl, ?_⟩
    rw [hnil]
    simp
  · obtain ⟨new1, htr1, hsh1, hmk1, hbot1⟩ := originalPostBranch_shape _ _ _ _ _ _ h1
    have hb1 : rs1.bot = bot0 := by
      rcases hbot1 with hb | ⟨i, t, hok', -⟩
      · exact hb
      · obtain ⟨e, he⟩ := hpost t
        rw [he] at hok'
        cases hok'
    obtain ⟨new2, htr2, hsh2⟩ := replyBranch_shape _ _ _ _ _ _ h2
    have hb2 : rs2.bot = rs1.bot := by
      rcases hsh2 with ⟨-, hb⟩ | ⟨target, -, -, -, -, hb | ⟨-, t, hok'⟩⟩
      · exact hb
      · exact hb
      · obtain ⟨e, he⟩ := hrep t target.id
        rw [he] at hok'
        cases hok'
    obtain ⟨new3, htr3, hsh3⟩ := quoteBranch_shape _ _ _ _ _ _ h3
    have hb3 : rs3.bot = rs2.bot := by
      rcases hsh3 with ⟨-, hb⟩ | ⟨c, -, -, -, hb | ⟨-, t, hok'⟩⟩
      · exact hb
      · exact hb
      · obtain ⟨e, he⟩ := hquo t c.id c.author
        rw [he] at hok'
        cases hok'
    have hrs : (likeBranch env settings (rankedCandidatesOf env topic settings) rs3).1 = rs := by
      rw [h4]
    obtain ⟨hlb, -, new4, htr4, hsh4⟩ := likeBranch_shape env settings
      (rankedCandidatesOf env topic settings) rs3
    rw [hrs] at htr4 hlb
    have hnolike1 : ∀ e ∈ new1, likeIdOf e = none := by
      intro e he
      rcases hsh1 e he with ⟨tn, rfl⟩ | ⟨t, rfl⟩ | ⟨i, rfl⟩ <;> rfl
    have hnolike2 : ∀ e ∈ new2, likeIdOf e = none := by
      intro e he
      rcases hsh2 with ⟨rfl, -⟩ | ⟨target, -, -, hsh, -, -⟩
      · simp at he
      · rcases hsh e he with ⟨tn, rfl⟩ | ⟨t, rfl⟩ | rfl <;> rfl
    have hnolike3 : ∀ e ∈ new3, likeIdOf e = none := by
      intro e he
      rcases hsh3 with ⟨rfl, -⟩ | ⟨c, -, hsh, -, -⟩
      · simp at he
      · rcases hsh e he with ⟨tn, rfl⟩ | ⟨t, rfl⟩ | rfl <;> rfl
    refine ⟨by rw [← hb1, ← hb2, ← hb3, ← hlb], ?_, ?_⟩
    · intro e he
      rw [htr4, htr3, htr2, htr1] at he
      simp only [List.mem_append] at he
      rcases he with (((he | he) | he) | he) | he
      · simp at he
      · rcases hsh1 e he with ⟨tn, rfl⟩ | ⟨t, rfl⟩ | ⟨i, rfl⟩
        · rfl
        · rfl
        · obtain ⟨t, hokt⟩ := hmk1 i he
          obtain ⟨e', he'⟩ := hpost t
          rw [he'] at hokt
          cases hokt
      · rcases hsh2 with ⟨rfl, -⟩ | ⟨target, -, -, hsh, hmk, -⟩
        · simp at he
        · rcases hsh e he with ⟨tn, rfl⟩ | ⟨t, rfl⟩ | rfl
          · rfl
          · rfl
          · obtain ⟨-, t, hokt⟩ := hmk target.id he
            obtain ⟨e', he'⟩ := hrep t target.id
            rw [he'] at hokt
            cases hokt
      · rcases hsh3 with ⟨rfl, -⟩ | ⟨c, -, hsh, hmk, -⟩
        · simp at he
        · rcases hsh e he with ⟨tn, rfl⟩ | ⟨t, rfl⟩ | rfl
          · rfl
          · rfl
          · obtain ⟨-, t, hokt⟩ := hmk c.id he
            obtain ⟨e', he'⟩ := hquo t c.id c.author
            rw [he'] at hokt
            cases hokt
      · obtain ⟨i, rfl⟩ := hsh4 e he
        rfl
    · intro acts hacts hlike hok
      rw [likeBranch_all_ok env settings acts _ rs3 hacts hlike hok] at h4
      obtain ⟨hxr, hxe⟩ := Prod.mk.injEq .. ▸ h4
      refine ⟨hxe.symm, ?_⟩
      rw [← hxr]
      show (rs3.trace ++ _).filterMap likeIdOf = _
      rw [List.filterMap_append]
      rw [htr3, htr2, htr1]
      rw [List.filterMap_append, List.filterMap_append, List.filterMap_append]
      rw [List.filterMap_eq_nil_iff.mpr hnolike1, List.filterMap_eq_nil_iff.mpr hnolike2,
        List.filterMap_eq_nil_iff.mpr hnolike3]
      simp only [← List.map_take, List.filterMap_map]
      have : (likeIdOf ∘ fun t : Tweet => Event.likeCall t.id) = fun t : Tweet => some t.id := by
        funext t
        rfl
      rw [this, filterMap_some_eq_map Tweet.id, List.map_take]
      simp

/-- C9: with the like category enabled and the like publisher succeeding,
a completed cycle issues exactly `min (likesPerCycle ?? 3) (number of
ranked candidates)` like calls, targeting the highest-ranked candidates
in rank order (the liked ids are the ranked prefix, so a pool smaller
than `likesPerCycle` is liked entirely); the like branch never consumes
an operator response (no approval prompt) and performs no
duplicate-prevention check — the selection depends only on the ranked
list, never on stored state. -/
theorem like_top_candidates_exact (env : Env) (topic : Topic) (settings : Settings)
    (bot0 : BotState) (ops0 : List OperatorResponse) (rs : RunState)
    (exit2 : Option String) (acts : Actions)
    (hacts : settings.actions = some acts) (hlike : acts.like = true)
    (hok : ∀ i, env.likeTweet i = Except.ok ())
    (hrun : runTopicCycle env topic settings bot0 ops0 = some (rs, exit2)) :
    exit2 = none ∧
    rs.trace.filterMap likeIdOf =
      ((rankedCandidatesOf env topic settings).take
        (settings.likesPerCycle.getD 3)).map Tweet.id ∧
    (rs.trace.filterMap likeIdOf).length =
      min (settings.likesPerCycle.getD 3) (rankedCandidatesOf env topic settings).length ∧
    (∀ (l : List Tweet) (r : RunState), (likeBranch env settings l r).1.ops = r.ops) := by
  have hops : ∀ (l : List Tweet) (r : RunState), (likeBranch env settings l r).1.ops = r.ops :=
    fun l r => (likeBranch_shape env settings l r).2.1
  rcases runTopicCycle_some _ _ _ _ _ _ _ hrun with ⟨hnil, rfl, rfl⟩ |
    ⟨-, rs1, rs2, rs3, h1, h2, h3, h4⟩
  · rw [hnil]
    exact ⟨rfl, by simp, by simp, hops⟩
  · obtain ⟨new1, htr1, hsh1, hmk1, hbot1⟩ := originalPostBranch_shape _ _ _ _ _ _ h1
    obtain ⟨new2, htr2, hsh2⟩ := replyBranch_shape _ _ _ _ _ _ h2
    obtain ⟨new3, htr3, hsh3⟩ := quoteBranch_shape _ _ _ _ _ _ h3
    have hnolike1 : ∀ e ∈ new1, likeIdOf e = none := by
      intro e he
      rcases hsh1 e he with ⟨tn, rfl⟩ | ⟨t, rfl⟩ | ⟨i, rfl⟩ <;> rfl
    have hnolike2 : ∀ e ∈ new2, likeIdOf e = none := by
      intro e he
      rcases hsh2 with ⟨rfl, -⟩ | ⟨target, -, -, hsh, -, -⟩
      · simp at he
      · rcases hsh e he with ⟨tn, rfl⟩ | ⟨t, rfl⟩ | rfl <;> rfl
    have hnolike3 : ∀ e ∈ new3, likeIdOf e = none := by
      intro e he
      rcases hsh3 with ⟨rfl, -⟩ | ⟨c, -, hsh, -, -⟩
      · simp at he
      · rcases hsh e he with ⟨tn, rfl⟩ | ⟨t, rfl⟩ | rfl <;> rfl
    rw [likeBranch_all_ok env settings acts _ rs3 hacts hlike hok] at h4
    obtain ⟨hxr, hxe⟩ := Prod.mk.injEq .. ▸ h4
    have hmain : rs.trace.filterMap likeIdOf =
        ((rankedCandidatesOf env topic settings).take
          (settings.likesPerCycle.getD 3)).map Tweet.id := by
      rw [← hxr]
      show (rs3.trace ++ _).filterMap likeIdOf = _
      rw [List.filterMap_append, htr3, htr2, htr1]
      rw [List.filterMap_append, List.filterMap_append, List.filterMap_append]
      rw [List.filterMap_eq_nil_iff.mpr hnolike1, List.filterMap_eq_nil_iff.mpr hnolike2,
        List.filterMap_eq_nil_iff.mpr hnolike3]
      simp only [← List.map_take, List.filterMap_map]
      have hcomp : (likeIdOf ∘ fun t : Tweet => Event.likeCall t.id) =
          fun t : Tweet => some t.id := by
        funext t
        rfl
      rw [hcomp, filterMap_some_eq_map Tweet.id, List.map_take]
      simp
    refine ⟨hxe.symm, hmain, ?_, hops⟩
    rw [hmain]
    simp [List.length_take]

/-- C10: if the publisher resolves every original-post publish
successfully but without an id (`res?.id` is absent), a completed cycle
performs no `markPosted` — no `markedPosted` event occurs and
`postedTweets` is unchanged (given its 500-entry bound, which every
store-produced state satisfies) — even when a `postCall` shows the tweet
was published; the cycle still continues through the remaining
categories. -/
theorem markPosted_requires_id (env : Env) (topic : Topic) (settings : Settings)
    (bot0 : BotState) (ops0 : List OperatorResponse) (rs : RunState) (exit2 : Option String)
    (hbound : bot0.postedTweets.length ≤ MAX_HISTORY)
    (hpost : ∀ t, env.postTweet t = Except.ok none)
    (hrun : runTopicCycle env topic settings bot0 ops0 = some (rs, exit2)) :
    (∀ i, Event.markedPosted i ∉ rs.trace) ∧ rs.bot.postedTweets = bot0.postedTweets := by
  rcases runTopicCycle_some _ _ _ _ _ _ _ hrun with ⟨-, rfl, -⟩ |
    ⟨-, rs1, rs2, rs3, h1, h2, h3, h4⟩
  · exact ⟨by simp, rfl⟩
  · obtain ⟨new1, htr1, hsh1, hmk1, hbot1⟩ := originalPostBranch_shape _ _ _ _ _ _ h1
    have hb1 : rs1.bot = bot0 := by
      rcases hbot1 with hb | ⟨i, t, hok', -⟩
      · exact hb
      · rw [hpost t] at hok'
        simp at hok'
    obtain ⟨new2, htr2, hsh2⟩ := replyBranch_shape _ _ _ _ _ _ h2
    have hp2 : rs2.bot.postedTweets = bot0.postedTweets := by
      rcases hsh2 with ⟨-, hb⟩ | ⟨target, -, -, -, -, hb | ⟨hb, -⟩⟩
      · rw [hb, hb1]
      · rw [hb, hb1]
      · rw [hb, markReplied_postedTweets _ _ _ (by rw [hb1]; exact hbound), hb1]
    obtain ⟨new3, htr3, hsh3⟩ := quoteBranch_shape _ _ _ _ _ _ h3
    have hp3 : rs3.bot.postedTweets = bot0.postedTweets := by
      rcases hsh3 with ⟨-, hb⟩ | ⟨c, -, -, -, hb | ⟨hb, -⟩⟩
      · rw [hb, hp2]
      · rw [hb, hp2]
      · rw [hb, markQuoted_postedTweets _ _ _ (by rw [hp2]; exact hbound), hp2]
    have hrs : (likeBranch env settings (rankedCandidatesOf env topic settings) rs3).1 = rs := by
      rw [h4]
    obtain ⟨hlb, -, new4, htr4, hsh4⟩ := likeBranch_shape env settings
      (rankedCandidatesOf env topic settings) rs3
    rw [hrs] at htr4 hlb
    constructor
    · intro i hi
      rw [htr4, htr3, htr2, htr1] at hi
      simp only [List.mem_append] at hi
      rcases hi with (((hi | hi) | hi) | hi) | hi
      · simp at hi
      · obtain ⟨t, hok'⟩ := hmk1 i hi
        rw [hpost t] at hok'
        simp at hok'
      · rcases hsh2 with ⟨rfl, -⟩ | ⟨target, -, -, hsh, -, -⟩
        · simp at hi
        · rcases hsh _ hi with ⟨tn, he⟩ | ⟨t, he⟩ | he <;> cases he
      · rcases hsh3 with ⟨rfl, -⟩ | ⟨c, -, hsh, -, -⟩
        · simp at hi
        · rcases hsh _ hi with ⟨tn, he⟩ | ⟨t, he⟩ | he <;> cases he
      · obtain ⟨j, he⟩ := hsh4 _ hi
        cases he
    · rw [hlb, hp3]

/-- Witness for C4: with all three publishers failing and one candidate,
the completed cycle marks nothing and still likes the top candidate. -/
theorem publish_failure_isolated_witness :
    (∀ e ∈ traceW4, isMarkEvent e = false) ∧
    traceW4.filterMap likeIdOf = ["q1"] := by
  have h := publish_failure_isolated envFail topicFail settingsFail initialState
    [opApprove, opApprove, opApprove] ⟨initialState, [], traceW4⟩ none
    (fun t => ⟨"E", rfl⟩) (fun t i => ⟨"E", rfl⟩) (fun t i a => ⟨"E", rfl⟩)
    (by with_unfolding_all decide)
  have h3 := h.2.2 ⟨true, true, true, true⟩ rfl rfl (fun i => rfl)
  exact ⟨h.2.1, h3.2.trans (by with_unfolding_all decide)⟩

/-- Witness for C9: five candidates, `likesPerCycle = 3` — exactly the
three highest-ranked ids are liked, in rank order. -/
theorem like_top_candidates_exact_witness :
    traceW9.filterMap likeIdOf = ["a", "b", "c"] ∧
    (traceW9.filterMap likeIdOf).length = 3 := by
  have h := like_top_candidates_exact envLike topicLike settingsLike initialState []
    ⟨initialState, [], traceW9⟩ none ⟨false, false, false, true⟩ rfl rfl (fun i => rfl)
    (by with_unfolding_all decide)
  exact ⟨h.2.1.trans (by with_unfolding_all decide),
    h.2.2.1.trans (by with_unfolding_all decide)⟩

/-- Witness for C10: the publisher resolves without an id; the tweet is
published (`postCall` in the trace) yet nothing is marked posted. -/
theorem markPosted_requires_id_witness :
    Event.postCall "orig" ∈ [Event.genTweet none, Event.postCall "orig"] ∧
    (∀ i, Event.markedPosted i ∉ [Event.genTweet none, Event.postCall "orig"]) ∧
    (⟨initialState, [], [Event.genTweet none, Event.postCall "orig"]⟩ : RunState).bot.postedTweets =
      initialState.postedTweets := by
  have h := markPosted_requires_id envNoId topicNoId settingsNoId initialState [opApprove]
    ⟨initialState, [], [Event.genTweet none, Event.postCall "orig"]⟩ none
    (by decide) (fun t => rfl) (by decide)
  exact ⟨by decide, h.1, h.2⟩

/-- C5: in the reply-only scenario, when the operator picks change-tone
with tone `τ` and then approves: `approveAction` returns a regenerate
verdict carrying `τ` with the draft text unchanged (it regenerates
nothing itself); the orchestrator re-invokes generation with `τ` and
re-presents the new draft; the completed cycle's trace shows exactly two
generate calls — first with null tone, then with `τ` — and exactly one
publish call carrying the second draft's text, followed by the
`markReplied`. -/
theorem tone_change_regenerates_via_caller (env : Env) (topic : Topic) (settings : Settings)
    (bot0 : BotState) (rest : List OperatorResponse) (acts : Actions) (target : Tweet)
    (τ t1 t2 : String) (opA opB : OperatorResponse)
    (hacts : settings.actions = some acts)
    (hpostOff : acts.postOriginal = false) (hreplyOn : acts.reply = true)
    (hquoteOff : acts.quoteTweet = false) (hlikeOff : acts.like = false)
    (htty : env.isTTY = true)
    (hne : rankedCandidatesOf env topic settings ≠ [])
    (htarget : (env.analyzeTweets (rankedCandidatesOf env topic settings)
      topic.name).topEngagementTweet = some target)
    (hfresh : hasRepliedTo target.id bot0 = false)
    (hg1 : env.generateReply target topic.name (styleOf topic settings) none = some t1)
    (hg2 : env.generateReply target topic.name (styleOf topic settings) (some τ) = some t2)
    (hA : opA.choice = MenuChoice.tone) (hAτ : opA.selectedTone = τ)
    (hB : opB.choice = MenuChoice.approve)
    (hpub : env.replyToTweet t2 target.id = Except.ok ()) :
    approveAction true opA ⟨ActionType.reply, t1, some target, topic.name, none⟩ =
      some ⟨Verdict.regenerate, t1, some τ⟩ ∧
    runTopicCycle env topic settings bot0 (opA :: opB :: rest) =
      some (⟨markReplied env.now target.id bot0, rest,
        [Event.genReply target.id none, Event.genReply target.id (some τ),
         Event.replyCall t2 target.id, Event.markedReplied target.id]⟩, none) := by
  have happ1 : approveAction true opA
      ⟨ActionType.reply, t1, some target, topic.name, none⟩ =
      some ⟨Verdict.regenerate, t1, some τ⟩ := by
    unfold approveAction
    rw [hA, hAτ]
    rfl
  have happ2 : ∀ (text : String) (tone : Option String),
      approveAction true opB ⟨ActionType.reply, text, some target, topic.name, tone⟩ =
      some ⟨Verdict.post, text, none⟩ := by
    intro text tone
    unfold approveAction
    rw [hB]
    rfl
  refine ⟨happ1, ?_⟩
  have hLoop : approveRegenLoop env.isTTY
      (fun t tn => ⟨ActionType.reply, t, some target, topic.name, tn⟩)
      (fun tone => env.generateReply target topic.name (styleOf topic settings) tone)
      (Event.genReply target.id) (opA :: opB :: rest) t1 none
      ([] ++ [Event.genReply target.id none]) =
      some (⟨Verdict.post, t2, none⟩, rest,
        ([] ++ [Event.genReply target.id none]) ++ [Event.genReply target.id (some τ)]) := by
    unfold approveRegenLoop
    try dsimp only
    rw [htty, happ1]
    try dsimp only
    rw [hg2]
    unfold approveRegenLoop
    try dsimp only
    rw [happ2]
  have hOrig : originalPostBranch env topic settings
      (env.analyzeTweets (rankedCandidatesOf env topic settings) topic.name)
      ⟨bot0, opA :: opB :: rest, []⟩ = some ⟨bot0, opA :: opB :: rest, []⟩ := by
    unfold originalPostBranch
    rw [hacts]
    simp [hpostOff]
  have hReply : replyBranch env topic settings
      (env.analyzeTweets (rankedCandidatesOf env topic settings) topic.name)
      ⟨bot0, opA :: opB :: rest, []⟩ =
      some ⟨markReplied env.now target.id bot0, rest,
        [Event.genReply target.id none, Event.genReply target.id (some τ),
         Event.replyCall t2 target.id, Event.markedReplied target.id]⟩ := by
    unfold replyBranch
    rw [hacts]
    try dsimp only
    rw [hreplyOn, htarget]
    try dsimp only
    rw [hfresh]
    try dsimp only
    rw [hg1]
    try dsimp only
    rw [hLoop]
    try dsimp only
    rw [hpub]
    simp
  have hQuote : quoteBranch env topic settings (rankedCandidatesOf env topic settings)
      ⟨markReplied env.now target.id bot0, rest,
        [Event.genReply target.id none, Event.genReply target.id (some τ),
         Event.replyCall t2 target.id, Event.markedReplied target.id]⟩ =
      some ⟨markReplied env.now target.id bot0, rest,
        [Event.genReply target.id none, Event.genReply target.id (some τ),
         Event.replyCall t2 target.id, Event.markedReplied target.id]⟩ := by
    unfold quoteBranch
    rw [hacts]
    simp [hquoteOff]
  have hLike : likeBranch env settings (rankedCandidatesOf env topic settings)
      ⟨markReplied env.now target.id bot0, rest,
        [Event.genReply target.id none, Event.genReply target.id (some τ),
         Event.replyCall t2 target.id, Event.markedReplied target.id]⟩ =
      (⟨markReplied env.now target.id bot0, rest,
        [Event.genReply target.id none, Event.genReply target.id (some τ),
         Event.replyCall t2 target.id, Event.markedReplied target.id]⟩, none) := by
    unfold likeBranch
    rw [hacts]
    simp [hlikeOff]
  unfold runTopicCycle
  try dsimp only
  rw [show (rankedCandidatesOf env topic settings).isEmpty = false from by simpa using hne]
  try dsimp only
  rw [hOrig]
  try dsimp only
  rw [hReply]
  try dsimp only
  rw [hQuote]
  try dsimp only
  rw [hLike]
  rfl

/-- Witness for C5: one tone change to "humorous" then approve — two
generate calls (null tone then the chosen tone) and one publish of the
second draft. -/
theorem tone_change_regenerates_via_caller_witness :
    approveAction true ⟨MenuChoice.tone, [], true, "humorous"⟩
      ⟨ActionType.reply, "draft1", some wtTarget, "ai", none⟩ =
      some ⟨Verdict.regenerate, "draft1", some "humorous"⟩ ∧
    runTopicCycle envTone topicTone settingsTone initialState
      [⟨MenuChoice.tone, [], true, "humorous"⟩, opApprove] =
      some (⟨markReplied "2024-01-06T00:00:00Z" "p1" initialState, [],
        [Event.genReply "p1" none, Event.genReply "p1" (some "humorous"),
         Event.replyCall "draft2" "p1", Event.markedReplied "p1"]⟩, none) :=
  tone_change_regenerates_via_caller envTone topicTone settingsTone initialState []
    ⟨false, true, false, false⟩ wtTarget "humorous" "draft1" "draft2"
    ⟨MenuChoice.tone, [], true, "humorous"⟩ opApprove
    rfl rfl rfl rfl rfl rfl (by with_unfolding_all decide) rfl (by decide)
    rfl rfl rfl rfl rfl rfl
